import Mathlib

/-! Shallow embedding of the SINGULARITY-DELTA core (reality graph, axiom
registry, failure-inevitability calculator, counterfactual simulator,
existence judge) from:
  src/core/reality_graph/graph_builder.py
  src/core/axioms/axiom_base.py
  src/core/inevitability_index/fii_model.py
  src/core/counterfactuals/scenario_generator.py
  src/core/verdict/existence_judge.py

Modelling conventions:
- Python floats are modelled as rationals.
- Python dicts are association lists in insertion order; writing to an
  existing key replaces the value in place, as dicts do.
- Python sets of edge ids are duplicate-free lists in insertion order
  (Python set iteration order is unspecified; insertion order is one
  faithful refinement of it).
- Python exceptions (KeyError on d[k], AttributeError on None.field,
  TypeError on number-vs-string comparison, ValueError raises) are the
  error branch of an Except String computation.
- f-string messages are modelled by the inductive type Msg, one
  constructor per message template, carrying the interpolated values;
  this avoids modelling Python float formatting, which no computation of
  the core ever branches on.
- The purely diagnostic dictionaries (CollapsePath.metadata,
  AxiomViolation.evidence) are not consumed by any downstream
  computation in the source and are omitted.
- uuid4-generated fresh edge ids are modelled by deterministic labels.
-/

namespace SingularityDelta

/-! Association-list model of Python dicts and sets. -/

abbrev Dict (α : Type) := List (String × α)

def dictGet {α : Type} (d : Dict α) (k : String) : Option α :=
  (d.find? (fun p => p.1 == k)).map Prod.snd

def dictGetD {α : Type} (d : Dict α) (k : String) (v : α) : α :=
  (dictGet d k).getD v

def dictContains {α : Type} (d : Dict α) (k : String) : Bool :=
  d.any (fun p => p.1 == k)

def dictKeys {α : Type} (d : Dict α) : List String :=
  d.map Prod.fst

def dictVals {α : Type} (d : Dict α) : List α :=
  d.map Prod.snd

/-- Python d[k] = v : replace in place when the key exists, else append. -/
def dictInsert {α : Type} (d : Dict α) (k : String) (v : α) : Dict α :=
  if dictContains d k then
    d.map (fun p => if p.1 == k then (p.1, v) else p)
  else
    d ++ [(k, v)]

/-- Python del d[k] (guarded by the callers with a containment test). -/
def dictErase {α : Type} (d : Dict α) (k : String) : Dict α :=
  d.filter (fun p => p.1 != k)

/-- Python set.add on an edge-id set modelled as a duplicate-free list. -/
def listAdd (l : List String) (x : String) : List String :=
  if x ∈ l then l else l ++ [x]

/-- Python set.discard / set.remove. -/
def listRemove (l : List String) (x : String) : List String :=
  l.filter (fun y => y != x)

/-! Metadata values: the numeric / boolean / string values the source
stores in node and edge metadata maps. -/

inductive MetaVal : Type
  | num (q : ℚ)
  | boolean (b : Bool)
  | str (s : String)
deriving DecidableEq

/-- Numeric read of a metadata value. Python arithmetic/comparisons accept
bools (True == 1) and raise TypeError on strings. -/
def metaNum : MetaVal → Except String ℚ
  | .num q => .ok q
  | .boolean b => .ok (if b then 1 else 0)
  | .str _ => .error "TypeError"

/-- Python m.get(k, default) followed by a numeric use. -/
def metaGetNum (m : Dict MetaVal) (k : String) (dflt : ℚ) : Except String ℚ :=
  match dictGet m k with
  | none => .ok dflt
  | some v => metaNum v

/-- Python truthiness of a metadata value. -/
def truthy : MetaVal → Bool
  | .num q => q != 0
  | .boolean b => b
  | .str s => s != ""

/-! Node and edge kinds (NodeType / EdgeType enums). -/

inductive NodeType : Type
  | decision | consequence | constraint | assumption
  | resource | behavior | failureMode | policy
deriving DecidableEq

inductive EdgeType : Type
  | causes | requires | contradicts | dependsOn
  | enables | weakens | assumes
deriving DecidableEq

structure Node : Type where
  id : String
  type : NodeType
  name : String
  description : String
  metadata : Dict MetaVal
  criticality : ℚ
deriving DecidableEq

structure Edge : Type where
  id : String
  source : String
  target : String
  type : EdgeType
  weight : ℚ
  confidence : ℚ
  metadata : Dict MetaVal
deriving DecidableEq

/-! Message templates (f-strings of the source), one constructor per
template, carrying the interpolated values. -/

inductive Msg : Type
  | lit (s : String)
  /-- edge.metadata.get("reason", "Explicit contradiction") -/
  | explicitReason (reason : Option MetaVal)
  /-- Resource NAME oversubscribed: DEMAND > CAPACITY -/
  | resourceOversub (resource : String) (demand capacity : ℚ)
  /-- High availability cannot coexist with single point of failure -/
  | haSingle
  /-- Stateless architecture contradicts stateful component -/
  | statelessStateful
  /-- Resource NAME exhausted: demand D > capacity C (C = none is float inf) -/
  | resourceExhausted (resource : String) (demand : ℚ) (capacity : Option ℚ)
  /-- Failure of NAME cascades to N components -/
  | cascade (trigger : String) (count : ℕ)
  /-- NAME is a single point of failure for N critical components -/
  | spof (name : String) (count : ℕ)
  /-- Circular dependency detected: joined names -/
  | deadlockCycle (names : List String)
  /-- Found N behaviors with no decision origin -/
  | orphanedBehaviors (count : ℕ)
  /-- Failure Inevitability Index: FII. No viable execution path exists. -/
  | inevitability (fii : ℚ)
  /-- System collapsed in N critical alternate scenarios -/
  | cfCollapsed (count : ℕ)
  /-- System stability depends on N irreplaceable human(s) -/
  | humanDeps (count : ℕ)
  /-- N critical assumptions failed stress testing -/
  | assumptionsFailed (count : ℕ)
  /-- Fatal violation of AXIOM_NAME -/
  | fatalWith (axiomName : String)
  /-- Failure Inevitability Index: FII (primary reason of branch 2) -/
  | fiiReason (fii : ℚ)
  /-- System collapsed in N critical scenarios -/
  | collapsedScenarios (count : ℕ)
  /-- Severity: S (evidence line) -/
  | severityPct (s : ℚ)
  /-- Violation type: T (evidence line) -/
  | violationNote (t : String)
  /-- severity=S (proof-chain step) -/
  | severityStep (s : ℚ)
  /-- fii=F (proof-chain step) -/
  | fiiStep (f : ℚ)
  /-- FII: F (elevated but below threshold) / (low) -/
  | fiiEvidence (f : ℚ)
  /-- Axiom violations: N (non-fatal) / No fatal axiom violations (N minor issues) -/
  | violationCount (n : ℕ)
  /-- critical_failures=N (proof-chain step) -/
  | criticalFailuresStep (n : ℕ)
  /-- Failed scenario: NAME -/
  | failedScenario (name : String)
  /-- Missing: joined categories -/
  | missingData (categories : List String)
deriving DecidableEq

structure Contradiction : Type where
  nodeA : Node
  nodeB : Node
  explanation : Msg
  severity : ℚ
  causalChain : List String
deriving DecidableEq

/-! The reality graph: node and edge dicts plus the forward and reverse
adjacency indices (node id to list of edge ids). -/

structure RealityGraph : Type where
  nodes : Dict Node
  edges : Dict Edge
  adj : Dict (List String)
  radj : Dict (List String)
deriving DecidableEq

def emptyGraph : RealityGraph := ⟨[], [], [], []⟩

/-- RealityGraph.add_node. -/
def addNode (g : RealityGraph) (n : Node) : RealityGraph :=
  { g with
    nodes := dictInsert g.nodes n.id n
    adj := if dictContains g.adj n.id then g.adj else g.adj ++ [(n.id, [])]
    radj := if dictContains g.radj n.id then g.radj else g.radj ++ [(n.id, [])] }

/-- RealityGraph.add_edge: validates both endpoints before any mutation;
registering into a missing adjacency bucket is a KeyError (the graph
API keeps a bucket for every node, so this arm is unreachable through
the API). -/
def addEdge (g : RealityGraph) (e : Edge) : Except String RealityGraph :=
  if !dictContains g.nodes e.source then
    .error ("Source node " ++ e.source ++ " not found")
  else if !dictContains g.nodes e.target then
    .error ("Target node " ++ e.target ++ " not found")
  else if dictContains g.adj e.source && dictContains g.radj e.target then
    .ok { g with
          edges := dictInsert g.edges e.id e
          adj := dictInsert g.adj e.source (listAdd (dictGetD g.adj e.source []) e.id)
          radj := dictInsert g.radj e.target (listAdd (dictGetD g.radj e.target []) e.id) }
  else
    .error "KeyError"

/-- RealityGraph.get_node (returns Optional). -/
def getNode (g : RealityGraph) (nodeId : String) : Option Node :=
  dictGet g.nodes nodeId

/-- Python self.nodes[nodeId]: KeyError when absent. -/
def nodesIdx (g : RealityGraph) (nodeId : String) : Except String Node :=
  match dictGet g.nodes nodeId with
  | some n => .ok n
  | none => .error "KeyError"

/-- Python self.edges[edgeId]: KeyError when absent. -/
def edgesIdx (g : RealityGraph) (edgeId : String) : Except String Edge :=
  match dictGet g.edges edgeId with
  | some e => .ok e
  | none => .error "KeyError"

/-- Python self.get_node(nodeId).field: AttributeError when the node is
absent (None has no attribute). -/
def reqNode (g : RealityGraph) (nodeId : String) : Except String Node :=
  match getNode g nodeId with
  | some n => .ok n
  | none => .error "AttributeError"

/-- RealityGraph.get_outgoing_edges. -/
def getOutgoingEdges (g : RealityGraph) (nodeId : String) :
    Except String (List Edge) :=
  (dictGetD g.adj nodeId []).mapM (edgesIdx g)

/-- RealityGraph.get_incoming_edges. -/
def getIncomingEdges (g : RealityGraph) (nodeId : String) :
    Except String (List Edge) :=
  (dictGetD g.radj nodeId []).mapM (edgesIdx g)

/-- RealityGraph.get_nodes_by_type. -/
def getNodesByType (g : RealityGraph) (t : NodeType) : List Node :=
  (dictVals g.nodes).filter (fun n => n.type == t)

def getBehaviorNodes (g : RealityGraph) : List Node :=
  getNodesByType g .behavior

def getDecisionNodes (g : RealityGraph) : List Node :=
  getNodesByType g .decision

/-- RealityGraph.get_critical_nodes. -/
def getCriticalNodes (g : RealityGraph) (threshold : ℚ) : List Node :=
  (dictVals g.nodes).filter (fun n => threshold ≤ n.criticality)

/-! has_decision_ancestry: stack-based reverse reachability with a visited
set. The Python while-loop always terminates (every iteration pops, and
pushes happen only for nodes newly added to the visited set); the Lean
function takes a fuel argument large enough for every run, with fuel
exhaustion modelled as an unreachable error branch. -/

def travFuel (g : RealityGraph) : ℕ :=
  (g.edges.length + 2) * (g.nodes.length + 1)

def ancestryLoop (g : RealityGraph) :
    ℕ → List String → List String → Except String Bool
  | 0, _, _ => .error "fuel"
  | fuel + 1, visited, stack =>
    match stack with
    | [] => .ok false
    | currentId :: rest =>
      if currentId ∈ visited then
        ancestryLoop g fuel visited rest
      else
        match dictGet g.nodes currentId with
        | none => .error "KeyError"
        | some current =>
          if current.type == .decision then .ok true
          else do
            let incoming ← getIncomingEdges g currentId
            ancestryLoop g fuel (currentId :: visited)
              ((incoming.map Edge.source).reverse ++ rest)

/-- RealityGraph.has_decision_ancestry. -/
def hasDecisionAncestry (g : RealityGraph) (n : Node) : Except String Bool :=
  ancestryLoop g (travFuel g) [] [n.id]

/-! Substring matching on lowercased names, for the name-pattern
contradiction heuristic ("high"+"availab", "single", "stateless",
"state"). -/

def seqStarts (needle : List Char) : List Char → Bool
  | [] => needle.isEmpty
  | c :: t =>
    match needle with
    | [] => true
    | n :: ns => n == c && seqStarts ns t

def seqContains (needle : List Char) : List Char → Bool
  | [] => needle.isEmpty
  | c :: t => seqStarts needle (c :: t) || seqContains needle t

/-- Python: needle in hay. -/
def strContains (hay needle : String) : Bool :=
  seqContains needle.data hay.data

/-- Python str.lower (the names in play are ASCII). -/
def lowerStr (s : String) : String := ⟨s.data.map Char.toLower⟩

/-! find_contradictions: the three detectors, concatenated in source
order. -/

/-- Detector 1: one contradiction per explicit Contradicts edge, reason
and severity from the edge metadata (severity default 0.9). -/
def explicitContradictions (g : RealityGraph) :
    Except String (List Contradiction) :=
  ((dictVals g.edges).filter (fun e => e.type == .contradicts)).mapM
    (fun e => do
      let source ← nodesIdx g e.source
      let target ← nodesIdx g e.target
      let severity ← metaGetNum e.metadata "severity" (9 / 10)
      pure { nodeA := source
             nodeB := target
             explanation := .explicitReason (dictGet e.metadata "reason")
             severity := severity
             causalChain := [source.name, "contradicts", target.name] })

/-- Detector 2 (_find_resource_contradictions): per Resource node, when
there are more than one Requires consumers and the summed
resource_demand (default 1) exceeds capacity (default 1), emit one
contradiction between the first two consumers at severity 0.85. -/
def findResourceContradictions (g : RealityGraph) :
    Except String (List Contradiction) :=
  (getNodesByType g .resource).foldlM
    (fun acc resource => do
      let incoming ← getIncomingEdges g resource.id
      let reqEdges := incoming.filter (fun e => e.type == .requires)
      let consumers ← reqEdges.mapM (fun e => nodesIdx g e.source)
      match consumers with
      | c0 :: c1 :: _ => do
        let demands ← consumers.mapM
          (fun c => metaGetNum c.metadata "resource_demand" 1)
        let totalDemand := demands.sum
        let capacity ← metaGetNum resource.metadata "capacity" 1
        if capacity < totalDemand then
          pure (acc ++
            [{ nodeA := c0
               nodeB := c1
               explanation := .resourceOversub resource.name totalDemand capacity
               severity := 17 / 20
               causalChain :=
                 [c0.name, "requires " ++ resource.name, c1.name,
                  "resource_exhausted"] }])
        else
          pure acc
      | _ => pure acc)
    []

/-- Detector 3 (_find_logical_contradictions): name-pattern heuristics on
Decision nodes. -/
def findLogicalContradictions (g : RealityGraph) : List Contradiction :=
  let decisions := getDecisionNodes g
  let haDecisions := decisions.filter
    (fun d => strContains (lowerStr d.name) "high" &&
              strContains (lowerStr d.name) "availab")
  let singlePoints := decisions.filter
    (fun d => strContains (lowerStr d.name) "single")
  let haPairs := haDecisions.flatMap (fun ha => singlePoints.map (fun sp =>
    ({ nodeA := ha
       nodeB := sp
       explanation := .haSingle
       severity := 19 / 20
       causalChain := [ha.name, "requires_redundancy", sp.name,
                       "lacks_redundancy"] } : Contradiction)))
  let stateless := decisions.filter
    (fun d => strContains (lowerStr d.name) "stateless")
  let stateful := decisions.filter
    (fun d => strContains (lowerStr d.name) "state" &&
              !strContains (lowerStr d.name) "stateless")
  let slPairs := stateless.flatMap (fun sl => stateful.map (fun sf =>
    ({ nodeA := sl
       nodeB := sf
       explanation := .statelessStateful
       severity := 7 / 10
       causalChain := [sl.name, "requires_no_state", sf.name,
                       "maintains_state"] } : Contradiction)))
  haPairs ++ slPairs

/-- RealityGraph.find_contradictions. -/
def findContradictions (g : RealityGraph) :
    Except String (List Contradiction) := do
  let explicit ← explicitContradictions g
  let resource ← findResourceContradictions g
  pure (explicit ++ resource ++ findLogicalContradictions g)

/-- RealityGraph.get_stats, as the individual counts the core reads. -/
def statsTotalNodes (g : RealityGraph) : ℕ := g.nodes.length
def statsTotalEdges (g : RealityGraph) : ℕ := g.edges.length
def statsDecisions (g : RealityGraph) : ℕ := (getDecisionNodes g).length
def statsBehaviors (g : RealityGraph) : ℕ := (getBehaviorNodes g).length
def statsAssumptions (g : RealityGraph) : ℕ :=
  (getNodesByType g .assumption).length
def statsCriticalNodes (g : RealityGraph) : ℕ :=
  (getCriticalNodes g (7 / 10)).length

/-! Failure Inevitability Calculator (fii_model.py). -/

inductive CollapsePathType : Type
  | contradiction | resourceExhaustion | humanDependency
  | cascadingFailure | assumptionViolation | deadlock | unboundedGrowth
deriving DecidableEq

structure CollapsePath : Type where
  pathType : CollapsePathType
  nodes : List String
  certainty : ℚ
  explanation : Msg
deriving DecidableEq

/-- FIICalculator._find_resource_exhaustion_paths. capacity defaults to
float inf (modelled as none), so an absent capacity entry never
triggers; a string capacity raises TypeError at the comparison, after
the demands were summed. -/
def findResourceExhaustionPaths (g : RealityGraph) :
    Except String (List CollapsePath) :=
  (getNodesByType g .resource).foldlM
    (fun acc resource => do
      let capRaw := dictGet resource.metadata "capacity"
      let incoming ← getIncomingEdges g resource.id
      let reqEdges := incoming.filter (fun e => e.type == .requires)
      if reqEdges.length > 0 then do
        let demands ← reqEdges.mapM (fun e => do
          let n ← reqNode g e.source
          metaGetNum n.metadata "resource_demand" 1)
        let totalDemand := demands.sum
        match capRaw with
        | none => pure acc
        | some v => do
          let capacity ← metaNum v
          if capacity < totalDemand then
            let certainty :=
              if 0 < capacity then min 1 (totalDemand / capacity - 1) else 1
            pure (acc ++
              [{ pathType := .resourceExhaustion
                 nodes := reqEdges.map Edge.source ++ [resource.id]
                 certainty := certainty
                 explanation :=
                   .resourceExhausted resource.name totalDemand
                     (some capacity) }])
          else
            pure acc
      else
        pure acc)
    []

/-- FIICalculator._find_all_dependents: forward reachability over Causes
and Enables edges, as a stack loop with a visited set and a dependents
set (both modelled as insertion-ordered duplicate-free lists). -/
def dependentsLoop (g : RealityGraph) :
    ℕ → List String → List String → List String →
    Except String (List String)
  | 0, _, _, _ => .error "fuel"
  | fuel + 1, dependents, visited, stack =>
    match stack with
    | [] => .ok dependents
    | current :: rest =>
      if current ∈ visited then
        dependentsLoop g fuel dependents visited rest
      else do
        let outgoing ← getOutgoingEdges g current
        let hits := (outgoing.filter
          (fun e => e.type == .causes || e.type == .enables)).map Edge.target
        dependentsLoop g fuel (hits.foldl listAdd dependents)
          (current :: visited) (hits.reverse ++ rest)

def findAllDependents (g : RealityGraph) (nodeId : String) :
    Except String (List String) :=
  dependentsLoop g (travFuel g) [] [] [nodeId]

/-- FIICalculator._find_cascading_failure_paths. -/
def findCascadingFailurePaths (g : RealityGraph) :
    Except String (List CollapsePath) :=
  (getCriticalNodes g (4 / 5)).foldlM
    (fun acc node => do
      let dependents ← findAllDependents g node.id
      if dependents.length > 3 then
        pure (acc ++
          [{ pathType := .cascadingFailure
             nodes := node.id :: dependents
             certainty := min (9 / 10) ((dependents.length : ℚ) / 10)
             explanation := .cascade node.name dependents.length }])
      else
        pure acc)
    []

/-- FIICalculator._find_spof_paths. -/
def findSpofPaths (g : RealityGraph) :
    Except String (List CollapsePath) :=
  (dictVals g.nodes).foldlM
    (fun acc node => do
      let dependents ← findAllDependents g node.id
      let criticalDependents ← dependents.foldlM
        (fun l d => do
          let dn ← reqNode g d
          pure (if (7 : ℚ) / 10 < dn.criticality then l ++ [d] else l))
        []
      let hasRedundancy :=
        truthy (dictGetD node.metadata "has_redundancy" (.boolean false))
      if !hasRedundancy && criticalDependents.length > 1 then
        pure (acc ++
          [{ pathType :=
               if node.type == .resource then
                 CollapsePathType.humanDependency
               else CollapsePathType.cascadingFailure
             nodes := node.id :: criticalDependents
             certainty :=
               min (19 / 20)
                 (7 / 10 + (criticalDependents.length : ℚ) * (1 / 20))
             explanation := .spof node.name criticalDependents.length }])
      else
        pure acc)
    []

/-! _find_deadlock_paths: recursive DFS over Requires / DependsOn edges
with a recursion stack. The visited set, recursion stack, current path
and found paths persist across all DFS roots (they are closed over by
the Python outer loop); in particular a cycle-returning call does not
pop its recursion-stack or path entries, exactly as in the source. -/

structure DState : Type where
  visited : List String
  recStack : List String
  currentPath : List String
  paths : List CollapsePath
deriving DecidableEq

/-- Python list.index: index of the first occurrence. -/
def firstIdx (x : String) : List String → ℕ
  | [] => 0
  | y :: t => if y == x then 0 else firstIdx x t + 1

/-- The control point of the deadlock DFS: entering has_cycle on a node,
or continuing its loop over the remaining filtered outgoing edges. -/
inductive DCall : Type
  | visit (st : DState) (nodeId : String)
  | edges (st : DState) (nodeId : String) (l : List Edge)

/-- The deadlock DFS driver, structurally recursive on fuel (one unit per
control step, so the function kernel-reduces; fuel exhaustion is an
unreachable error branch given the fuel below). -/
def deadDrive (g : RealityGraph) : ℕ → DCall → Except String (Bool × DState)
  | 0, _ => .error "fuel"
  | fuel + 1, .visit st nodeId => do
    let st1 : DState :=
      { visited := listAdd st.visited nodeId
        recStack := listAdd st.recStack nodeId
        currentPath := st.currentPath ++ [nodeId]
        paths := st.paths }
    let outgoing ← getOutgoingEdges g nodeId
    let hits := outgoing.filter
      (fun e => e.type == .requires || e.type == .dependsOn)
    deadDrive g fuel (.edges st1 nodeId hits)
  | _ + 1, .edges st nodeId [] =>
    .ok (false,
      { st with
        currentPath := st.currentPath.dropLast
        recStack := listRemove st.recStack nodeId })
  | fuel + 1, .edges st nodeId (e :: rest) =>
    if e.target ∈ st.visited then
      if e.target ∈ st.recStack then
        if e.target ∈ st.currentPath then do
          let cycle := st.currentPath.drop (firstIdx e.target st.currentPath)
          let names ← cycle.mapM (fun n => do
            let nd ← reqNode g n
            pure nd.name)
          let p : CollapsePath :=
            { pathType := .deadlock
              nodes := cycle
              certainty := 4 / 5
              explanation := .deadlockCycle names }
          .ok (true, { st with paths := st.paths ++ [p] })
        else
          .error "ValueError"
      else
        deadDrive g fuel (.edges st nodeId rest)
    else do
      let found ← deadDrive g fuel (.visit st e.target)
      if found.1 then .ok (true, found.2)
      else deadDrive g fuel (.edges found.2 nodeId rest)

/-- One call of the inner has_cycle function. -/
def deadlockVisit (g : RealityGraph) (fuel : ℕ) (st : DState)
    (nodeId : String) : Except String (Bool × DState) :=
  deadDrive g fuel (.visit st nodeId)

/-- Fuel for the deadlock DFS. -/
def deadFuel (g : RealityGraph) : ℕ :=
  (g.edges.length + 2) * (g.nodes.length + 1) + 2

/-- The outer loop of _find_deadlock_paths over every node id. -/
def deadlockOuter (g : RealityGraph) : List String → DState →
    Except String DState
  | [], st => .ok st
  | nid :: rest, st =>
    if nid ∈ st.visited then deadlockOuter g rest st
    else do
      let r ← deadlockVisit g (deadFuel g) st nid
      deadlockOuter g rest r.2

def findDeadlockPaths (g : RealityGraph) : Except String (List CollapsePath) := do
  let st ← deadlockOuter g (dictKeys g.nodes) ⟨[], [], [], []⟩
  pure st.paths

/-- FIICalculator._identify_collapse_paths: the five discoveries,
concatenated in source order. -/
def identifyCollapsePaths (g : RealityGraph) :
    Except String (List CollapsePath) := do
  let contradictions ← findContradictions g
  let contraPaths := contradictions.map (fun c =>
    ({ pathType := .contradiction
       nodes := c.causalChain
       certainty := c.severity
       explanation := c.explanation } : CollapsePath))
  let resourcePaths ← findResourceExhaustionPaths g
  let cascadePaths ← findCascadingFailurePaths g
  let spofPaths ← findSpofPaths g
  let deadlockPaths ← findDeadlockPaths g
  pure (contraPaths ++ resourcePaths ++ cascadePaths ++ spofPaths ++
        deadlockPaths)

/-- The probabilistic-OR combinator of the FIC: P(A or B). -/
def pOr (a p : ℚ) : ℚ := a + p - a * p

/-- FIICalculator._compute_base_fii. -/
def computeBaseFii (paths : List CollapsePath) : ℚ :=
  if paths.isEmpty then 0
  else paths.foldl (fun acc p => pOr acc p.certainty) 0

/-- Maximum of a list of rationals, 0 on the empty list (every use is
guarded by a non-emptiness test, as Python max would raise there). -/
def listMaxQ : List ℚ → ℚ
  | [] => 0
  | q :: t => t.foldl max q

/-! Axiom violations (axiom_base.py). -/

inductive AxiomViolationType : Type
  | contradiction | causalityBreak | inevitability | humanDependency
  | silentAssumption | unexplainedBehavior | counterfactualFailure
deriving DecidableEq

structure AxiomViolation : Type where
  axiomName : String
  violationType : AxiomViolationType
  severity : ℚ
  causalChain : List String
  explanation : Msg
deriving DecidableEq

/-- AxiomViolation.is_fatal. -/
def isFatal (v : AxiomViolation) : Bool := (19 : ℚ) / 20 ≤ v.severity

/-- FIICalculator._compute_violation_adjustment. -/
def computeViolationAdjustment (violations : List AxiomViolation) : ℚ :=
  if violations.isEmpty then 0
  else
    let maxSeverity := listMaxQ (violations.map AxiomViolation.severity)
    min 1 (maxSeverity * (1 + (1 / 20) * ((violations.length : ℚ) - 1)))

/-- FIICalculator._compute_structure_adjustment. -/
def computeStructureAdjustment (g : RealityGraph) : ℚ :=
  if statsTotalNodes g = 0 then 0
  else
    let criticalFrac :=
      (statsCriticalNodes g : ℚ) / (statsTotalNodes g : ℚ)
    let assumptionFrac :=
      (statsAssumptions g : ℚ) / (max (statsDecisions g) 1 : ℕ)
    criticalFrac * (3 / 10) + min 1 assumptionFrac * (2 / 10)

/-- FIICalculator._combine_factors. -/
def combineFactors (base violations structure_ : ℚ) : ℚ :=
  pOr (pOr base violations) structure_

/-- FIICalculator.compute. -/
def compute (g : RealityGraph) (violations : List AxiomViolation) :
    Except String ℚ := do
  let paths ← identifyCollapsePaths g
  let baseFii := computeBaseFii paths
  let violationAdjustment := computeViolationAdjustment violations
  let structureAdjustment := computeStructureAdjustment g
  pure (min 1 (max 0
    (combineFactors baseFii violationAdjustment structureAdjustment)))

/-! The side-channel context map consumed by the axioms, with the
recognized keys of the external interface; an absent key is its default
("empty/zero"), so defaults stand for absence. -/

structure CtxCfRecord : Type where
  survived : Bool
  scenarioCriticality : ℚ
deriving DecidableEq

structure HumanDependency : Type where
  identifier : String
  isSinglePointOfFailure : Bool
  failureScenario : String
deriving DecidableEq

structure AssumptionRecord : Type where
  stressTestFailed : Bool
deriving DecidableEq

structure Ctx : Type where
  failureInevitabilityIndex : ℚ := 0
  failurePaths : List String := []
  counterfactualResults : List CtxCfRecord := []
  humanDependencies : List HumanDependency := []
  extractedAssumptions : List AssumptionRecord := []
  hostileAssumptions : List AssumptionRecord := []
deriving DecidableEq

def emptyCtx : Ctx := {}

/-- ExistenceAxiom.verify: collects Behavior nodes with no decision
ancestry, severity 0.8. -/
def existenceVerify (g : RealityGraph) (_ctx : Ctx) :
    Except String (Option AxiomViolation) := do
  let orphaned ← (getBehaviorNodes g).foldlM
    (fun acc n => do
      let h ← hasDecisionAncestry g n
      pure (if h then acc else acc ++ [n.id]))
    []
  if orphaned.isEmpty then
    pure none
  else
    pure (some
      { axiomName := "EXISTENCE_AXIOM"
        violationType := .unexplainedBehavior
        severity := 4 / 5
        causalChain := ["undefined_origin", "behavior_without_decision"]
        explanation := .orphanedBehaviors orphaned.length })

/-- ContradictionLaw.verify: severity is the maximum contradiction
severity; the primary contradiction is the first attaining it. -/
def contradictionLawVerify (g : RealityGraph) (_ctx : Ctx) :
    Except String (Option AxiomViolation) := do
  let contradictions ← findContradictions g
  match contradictions with
  | [] => pure none
  | _ =>
    let maxSeverity := listMaxQ (contradictions.map Contradiction.severity)
    match contradictions.find? (fun c => c.severity == maxSeverity) with
    | none => .error "StopIteration"
    | some primary =>
      pure (some
        { axiomName := "CONTRADICTION_LAW"
          violationType := .contradiction
          severity := maxSeverity
          causalChain := primary.causalChain
          explanation := primary.explanation })

/-- InevitabilityAxiom.verify. -/
def inevitabilityVerify (_g : RealityGraph) (ctx : Ctx) :
    Option AxiomViolation :=
  let fii := ctx.failureInevitabilityIndex
  if (19 : ℚ) / 20 ≤ fii then
    some
      { axiomName := "INEVITABILITY_AXIOM"
        violationType := .inevitability
        severity := fii
        causalChain := ["all_paths_analyzed", "no_escape_route",
                        "collapse_certain"]
        explanation := .inevitability fii }
  else none

/-- CounterfactualValidityAxiom.verify. -/
def counterfactualValidityVerify (_g : RealityGraph) (ctx : Ctx) :
    Option AxiomViolation :=
  let failedScenarios := ctx.counterfactualResults.filter
    (fun r => !r.survived)
  let criticalFailures := failedScenarios.filter
    (fun r => (7 : ℚ) / 10 ≤ r.scenarioCriticality)
  if criticalFailures.isEmpty then none
  else
    let failureRate :=
      if ctx.counterfactualResults.isEmpty then 0
      else (failedScenarios.length : ℚ) / (ctx.counterfactualResults.length : ℚ)
    some
      { axiomName := "COUNTERFACTUAL_VALIDITY"
        violationType := .counterfactualFailure
        severity := min (9 / 10) failureRate
        causalChain := ["counterfactual_test", "critical_scenario_failure"]
        explanation := .cfCollapsed criticalFailures.length }

/-- HumanDependencyParadox.verify. -/
def humanDependencyVerify (_g : RealityGraph) (ctx : Ctx) :
    Option AxiomViolation :=
  let criticalDependencies := ctx.humanDependencies.filter
    (fun h => h.isSinglePointOfFailure)
  if criticalDependencies.isEmpty then none
  else
    some
      { axiomName := "HUMAN_DEPENDENCY_PARADOX"
        violationType := .humanDependency
        severity := 17 / 20
        causalChain := ["human_identified", "no_redundancy",
                        "single_point_of_failure"]
        explanation := .humanDeps criticalDependencies.length }

/-- SilentAssumptionLaw.verify. -/
def silentAssumptionVerify (_g : RealityGraph) (ctx : Ctx) :
    Option AxiomViolation :=
  let violated := ctx.hostileAssumptions.filter
    (fun a => a.stressTestFailed)
  if violated.isEmpty then none
  else
    some
      { axiomName := "SILENT_ASSUMPTION_LAW"
        violationType := .silentAssumption
        severity := 3 / 4
        causalChain := ["assumption_extracted", "stress_test",
                        "assumption_violated"]
        explanation := .assumptionsFailed violated.length }

/-- AxiomRegistry.verify_all: every axiom is evaluated in registry order
and the non-null results collected. -/
def verifyAll (g : RealityGraph) (ctx : Ctx) :
    Except String (List AxiomViolation) := do
  let v1 ← existenceVerify g ctx
  let v2 ← contradictionLawVerify g ctx
  let v3 := inevitabilityVerify g ctx
  let v4 := counterfactualValidityVerify g ctx
  let v5 := humanDependencyVerify g ctx
  let v6 := silentAssumptionVerify g ctx
  pure (([v1, v2, v3, v4, v5, v6].filterMap id))

/-- AxiomRegistry.get_fatal_violations. -/
def getFatalViolations (violations : List AxiomViolation) :
    List AxiomViolation :=
  violations.filter isFatal

/-! Existence Judge (existence_judge.py). -/

inductive VerdictType : Type
  | permissible | notPermissible | unverified
deriving DecidableEq

/-- The .value string of each AxiomViolationType, as used in proof chains
and evidence lines. -/
def violationTypeValue : AxiomViolationType → String
  | .contradiction => "contradiction"
  | .causalityBreak => "causality_break"
  | .inevitability => "inevitability"
  | .humanDependency => "human_dependency"
  | .silentAssumption => "silent_assumption"
  | .unexplainedBehavior => "unexplained_behavior"
  | .counterfactualFailure => "counterfactual_failure"

/-! Counterfactual scenario and result records (scenario_generator.py),
as the judge and the simulator consume them. -/

inductive ScenarioType : Type
  | trafficSpike | nodeFailure | humanUnavailable | assumptionViolated
  | resourceDegraded | networkPartition | dataCorruption
  | deploymentFailure
deriving DecidableEq

structure CounterfactualScenario : Type where
  name : String
  scenarioType : ScenarioType
  description : String
  criticality : ℚ
deriving DecidableEq

structure CounterfactualResult : Type where
  scenario : CounterfactualScenario
  survived : Bool
  collapseReason : Msg
  fiiAfter : ℚ
  newViolations : List AxiomViolation
  explanation : Msg
deriving DecidableEq

structure ExistenceVerdict : Type where
  verdict : VerdictType
  certainty : ℚ
  primaryReason : Msg
  supportingEvidence : List Msg
  failureInevitabilityIndex : ℚ
  axiomViolations : List AxiomViolation
  counterfactualFailures : ℕ
  proofChain : List Msg
deriving DecidableEq

/-- ExistenceJudge._count_cf_failures. -/
def countCfFailures (cfResults : List CounterfactualResult) : ℕ :=
  (cfResults.filter (fun r => !r.survived)).length

/-- ExistenceJudge._verdict_fatal_axiom. -/
def verdictFatalAxiom (_g : RealityGraph) (violations : List AxiomViolation)
    (fii : ℚ) (cfResults : List CounterfactualResult)
    (violation : AxiomViolation) : ExistenceVerdict :=
  { verdict := .notPermissible
    certainty := 1
    primaryReason := .fatalWith violation.axiomName
    supportingEvidence :=
      [violation.explanation, .severityPct violation.severity,
       .violationNote (violationTypeValue violation.violationType)]
    failureInevitabilityIndex := fii
    axiomViolations := violations
    counterfactualFailures := countCfFailures cfResults
    proofChain :=
      [.lit "AXIOM_VERIFICATION", .lit violation.axiomName,
       .lit (violationTypeValue violation.violationType),
       .severityStep violation.severity, .lit "FATAL_VIOLATION",
       .lit "SYSTEM_INVALID"] }

/-- ExistenceJudge._verdict_inevitable_failure. -/
def verdictInevitableFailure (_g : RealityGraph)
    (violations : List AxiomViolation) (fii : ℚ)
    (cfResults : List CounterfactualResult) : ExistenceVerdict :=
  { verdict := .notPermissible
    certainty := 1
    primaryReason := .fiiReason fii
    supportingEvidence :=
      [.lit "All execution paths lead to system collapse",
       .fiiEvidence fii,
       .lit "Per Inevitability Axiom: system is logically failed"]
    failureInevitabilityIndex := fii
    axiomViolations := violations
    counterfactualFailures := countCfFailures cfResults
    proofChain :=
      [.lit "FII_CALCULATION", .fiiStep fii, .lit "fii >= 0.90",
       .lit "INEVITABILITY_AXIOM_TRIGGERED", .lit "COLLAPSE_CERTAIN",
       .lit "SYSTEM_INVALID"] }

/-- ExistenceJudge._verdict_counterfactual_failure (only reached with at
least two failures; the head accesses are guarded by the caller). -/
def verdictCounterfactualFailure (_g : RealityGraph)
    (violations : List AxiomViolation) (fii : ℚ)
    (failures : List CounterfactualResult) (f0 : CounterfactualResult) :
    ExistenceVerdict :=
  { verdict := .notPermissible
    certainty := 19 / 20
    primaryReason := .collapsedScenarios failures.length
    supportingEvidence :=
      ((failures.take 3).map (fun f => Msg.failedScenario f.scenario.name)) ++
      [.lit "Per Counterfactual Validity Axiom: system is fundamentally fragile"]
    failureInevitabilityIndex := fii
    axiomViolations := violations
    counterfactualFailures := failures.length
    proofChain :=
      [.lit "COUNTERFACTUAL_SIMULATION",
       .criticalFailuresStep failures.length,
       .lit f0.scenario.name, f0.collapseReason,
       .lit "COUNTERFACTUAL_VALIDITY_VIOLATED", .lit "SYSTEM_INVALID"] }

/-- ExistenceJudge._identify_missing_data. -/
def identifyMissingData (g : RealityGraph) : List String :=
  (if statsDecisions g = 0 then ["engineering decisions"] else []) ++
  (if statsBehaviors g = 0 then ["system behaviors"] else []) ++
  (if statsTotalEdges g = 0 then ["causal relationships"] else []) ++
  (if statsAssumptions g = 0 then ["system assumptions"] else [])

/-- ExistenceJudge._verdict_unverified. -/
def verdictUnverified (g : RealityGraph) (violations : List AxiomViolation)
    (fii : ℚ) (cfResults : List CounterfactualResult) : ExistenceVerdict :=
  { verdict := .unverified
    certainty := 1 / 2
    primaryReason := .lit "Insufficient data to render verdict"
    supportingEvidence :=
      [.missingData (identifyMissingData g),
       .lit "Cannot verify system without complete model",
       .lit "Recommendation: Provide additional system specifications"]
    failureInevitabilityIndex := fii
    axiomViolations := violations
    counterfactualFailures := countCfFailures cfResults
    proofChain :=
      [.lit "DATA_COMPLETENESS_CHECK", .lit "INCOMPLETE_MODEL",
       .missingData (identifyMissingData g), .lit "CANNOT_VERIFY",
       .lit "VERDICT_UNVERIFIED"] }

/-- ExistenceJudge._verdict_permissible_fragile. -/
def verdictPermissibleFragile (_g : RealityGraph)
    (violations : List AxiomViolation) (fii : ℚ)
    (cfResults : List CounterfactualResult) : ExistenceVerdict :=
  { verdict := .permissible
    certainty := 3 / 4
    primaryReason :=
      .lit "System is logically permissible but exhibits fragility"
    supportingEvidence :=
      [.fiiEvidence fii, .violationCount violations.length,
       .lit "System may survive but requires careful operation"]
    failureInevitabilityIndex := fii
    axiomViolations := violations
    counterfactualFailures := countCfFailures cfResults
    proofChain :=
      [.lit "AXIOM_VERIFICATION", .lit "no_fatal_violations",
       .lit "FII_CALCULATION", .fiiStep fii, .lit "fii < 0.90",
       .lit "COUNTERFACTUAL_VALIDATION", .lit "acceptable_failure_rate",
       .lit "VERDICT_PERMISSIBLE_FRAGILE"] }

/-- ExistenceJudge._verdict_permissible_robust. -/
def verdictPermissibleRobust (_g : RealityGraph)
    (violations : List AxiomViolation) (fii : ℚ)
    (cfResults : List CounterfactualResult) : ExistenceVerdict :=
  { verdict := .permissible
    certainty := 1
    primaryReason := .lit "System is logically permissible and robust"
    supportingEvidence :=
      [.fiiEvidence fii, .violationCount violations.length,
       .lit "Survived critical counterfactual scenarios",
       .lit "System demonstrates structural soundness"]
    failureInevitabilityIndex := fii
    axiomViolations := violations
    counterfactualFailures := countCfFailures cfResults
    proofChain :=
      [.lit "AXIOM_VERIFICATION", .lit "no_fatal_violations",
       .lit "FII_CALCULATION", .fiiStep fii, .lit "fii < 0.70",
       .lit "COUNTERFACTUAL_VALIDATION", .lit "critical_scenarios_survived",
       .lit "VERDICT_PERMISSIBLE_ROBUST"] }

/-- The behavior loop of _has_sufficient_data: returns False at the first
behavior with no decision ancestry. -/
def sufficientLoop (g : RealityGraph) : List Node → Except String Bool
  | [] => .ok true
  | b :: rest => do
    let h ← hasDecisionAncestry g b
    if h then sufficientLoop g rest else .ok false

/-- ExistenceJudge._has_sufficient_data. -/
def hasSufficientData (g : RealityGraph) : Except String Bool :=
  if statsDecisions g = 0 then .ok false
  else if statsTotalEdges g = 0 then .ok false
  else sufficientLoop g (getBehaviorNodes g)

/-- ExistenceJudge.render_verdict: the ordered decision procedure; the
first matching branch returns. -/
def renderVerdict (g : RealityGraph) (violations : List AxiomViolation)
    (fii : ℚ) (cfResults : List CounterfactualResult) :
    Except String ExistenceVerdict :=
  match (violations.filter isFatal) with
  | v :: _ => .ok (verdictFatalAxiom g violations fii cfResults v)
  | [] =>
    if (9 : ℚ) / 10 ≤ fii then
      .ok (verdictInevitableFailure g violations fii cfResults)
    else
      let criticalCfFailures := cfResults.filter
        (fun r => !r.survived && (7 : ℚ) / 10 ≤ r.scenario.criticality)
      match criticalCfFailures with
      | f0 :: _ :: _ =>
        .ok (verdictCounterfactualFailure g violations fii
              criticalCfFailures f0)
      | _ => do
        let sufficient ← hasSufficientData g
        if !sufficient then
          pure (verdictUnverified g violations fii cfResults)
        else if (7 : ℚ) / 10 ≤ fii ∨ violations.length > 3 then
          pure (verdictPermissibleFragile g violations fii cfResults)
        else
          pure (verdictPermissibleRobust g violations fii cfResults)

/-! Counterfactual simulator (scenario_generator.py): graph cloning and
the mutation operators. -/

/-- CounterfactualSimulator._clone_graph: copy every node, then every
edge, rebuilding both adjacency indices from scratch. Registering an
edge whose source or target has no (rebuilt) bucket is a KeyError, as
in the source. -/
def cloneGraph (g : RealityGraph) : Except String RealityGraph := do
  let g0 : RealityGraph :=
    { nodes := g.nodes.map (fun p => (p.2.id, p.2))
      edges := []
      adj := g.nodes.map (fun p => (p.2.id, []))
      radj := g.nodes.map (fun p => (p.2.id, [])) }
  g.edges.foldlM
    (fun acc p => do
      let e := p.2
      if dictContains acc.adj e.source && dictContains acc.radj e.target then
        pure { acc with
               edges := acc.edges ++ [(e.id, e)]
               adj := dictInsert acc.adj e.source
                 (listAdd (dictGetD acc.adj e.source []) e.id)
               radj := dictInsert acc.radj e.target
                 (listAdd (dictGetD acc.radj e.target []) e.id) }
      else
        .error "KeyError")
    g0

/-- CounterfactualSimulator._modify_traffic_spike: on every Resource node
whose name contains cpu or memory, multiply the resource_demand
metadata of every incoming-edge source that has one. -/
def modifyTrafficSpike (multiplier : ℚ) (g : RealityGraph) :
    Except String RealityGraph :=
  (getNodesByType g .resource).foldlM
    (fun acc resource =>
      if strContains (lowerStr resource.name) "cpu" ||
         strContains (lowerStr resource.name) "memory" then do
        let incoming ← getIncomingEdges acc resource.id
        incoming.foldlM
          (fun acc2 e => do
            let sourceNode ← reqNode acc2 e.source
            match dictGet sourceNode.metadata "resource_demand" with
            | none => pure acc2
            | some v => do
              let q ← metaNum v
              let updated :=
                { sourceNode with
                  metadata := dictInsert sourceNode.metadata
                    "resource_demand" (.num (q * multiplier)) }
              pure { acc2 with
                     nodes := dictInsert acc2.nodes sourceNode.id updated })
          acc
      else
        pure acc)
    g

/-- CounterfactualSimulator._modify_node_failure: remove the node and
every edge touching it, with adjacency cleanup; a no-op when the node
is absent. -/
def modifyNodeFailure (nodeId : String) (g : RealityGraph) : RealityGraph :=
  if dictContains g.nodes nodeId then
    let edgesToRemove :=
      (g.edges.filter
        (fun p => p.2.source == nodeId || p.2.target == nodeId)).map
        Prod.fst
    let cleaned := edgesToRemove.foldl
      (fun acc eid =>
        match dictGet acc.edges eid with
        | none => acc
        | some e =>
          { acc with
            edges := dictErase acc.edges eid
            adj :=
              if dictContains acc.adj e.source then
                dictInsert acc.adj e.source
                  (listRemove (dictGetD acc.adj e.source []) eid)
              else acc.adj
            radj :=
              if dictContains acc.radj e.target then
                dictInsert acc.radj e.target
                  (listRemove (dictGetD acc.radj e.target []) eid)
              else acc.radj })
      g
    { cleaned with
      nodes := dictErase cleaned.nodes nodeId
      adj := dictErase cleaned.adj nodeId
      radj := dictErase cleaned.radj nodeId }
  else
    g

/-- CounterfactualSimulator._modify_remove_resource: mark the resource
unavailable and zero its capacity, without deleting it. -/
def modifyRemoveResource (resourceId : String) (g : RealityGraph) :
    RealityGraph :=
  match dictGet g.nodes resourceId with
  | none => g
  | some resource =>
    let updated :=
      { resource with
        metadata :=
          dictInsert (dictInsert resource.metadata "available"
            (.boolean false)) "capacity" (.num 0) }
    { g with nodes := dictInsert g.nodes resourceId updated }

/-- CounterfactualSimulator._modify_violate_assumption: for every
outgoing Assumes edge, add a Contradicts edge from its target back to
the assumption node with severity 0.85. The uuid4 edge ids are modelled
as deterministic labels indexed by position. -/
def modifyViolateAssumption (assumptionId : String) (g : RealityGraph) :
    Except String RealityGraph :=
  match dictGet g.nodes assumptionId with
  | none => pure g
  | some assumption => do
    let outgoing ← getOutgoingEdges g assumptionId
    let assumesEdges := outgoing.filter (fun e => e.type == .assumes)
    (List.range assumesEdges.length).foldlM
      (fun acc i =>
        match assumesEdges.get? i with
        | none => pure acc
        | some e =>
          addEdge acc
            { id := "cf-contra-" ++ assumptionId ++ "-" ++ toString i
              source := e.target
              target := assumptionId
              type := .contradicts
              weight := 1
              confidence := 1
              metadata :=
                [("reason", .str ("Assumption " ++ assumption.name ++
                    " violated")),
                 ("severity", .num (17 / 20))] })
      g

/-- The mutation operators as first-class values, dispatched by
applyMutation. -/
inductive Mutation : Type
  | trafficSpike (multiplier : ℚ)
  | nodeFailure (nodeId : String)
  | resourceRemoval (resourceId : String)
  | assumptionViolation (assumptionId : String)
deriving DecidableEq

def applyMutation (m : Mutation) (g : RealityGraph) :
    Except String RealityGraph :=
  match m with
  | .trafficSpike mult => modifyTrafficSpike mult g
  | .nodeFailure nid => pure (modifyNodeFailure nid g)
  | .resourceRemoval rid => pure (modifyRemoveResource rid g)
  | .assumptionViolation aid => modifyViolateAssumption aid g

/-- CounterfactualSimulator._test_scenario: clone the base graph, apply
the mutations to the clone, re-run the axiom registry and the FIC on
the mutated clone under the ephemeral counterfactual context, and judge
survival as no fatal violation and FII below 0.9. -/
def testScenario (base : RealityGraph) (scenario : CounterfactualScenario)
    (mutations : List Mutation) : Except String CounterfactualResult := do
  let testGraph0 ← cloneGraph base
  let testGraph ← mutations.foldlM (fun acc m => applyMutation m acc)
    testGraph0
  let violations ← verifyAll testGraph emptyCtx
  let fiiAfter ← compute testGraph violations
  let fatalViolations := getFatalViolations violations
  let survived := fatalViolations.isEmpty && fiiAfter < 9 / 10
  let collapseReason : Msg :=
    if survived then .lit ""
    else
      match fatalViolations with
      | v :: _ => v.explanation
      | [] => .fiiReason fiiAfter
  pure
    { scenario := scenario
      survived := survived
      collapseReason := collapseReason
      fiiAfter := fiiAfter
      newViolations := violations
      explanation := collapseReason }

/-! Structural well-formedness: the invariant of the data model (every
edge endpoint present in the node collection, adjacency indices in
lock-step with the node and edge collections, keyed by id). Every field
is a bounded, decidable condition. -/

@[mk_iff invariantIff]
structure Invariant (g : RealityGraph) : Prop where
  nodesNodup : (dictKeys g.nodes).Nodup
  edgesNodup : (dictKeys g.edges).Nodup
  nodeKeyEq : ∀ p ∈ g.nodes, (p : String × Node).2.id = p.1
  edgeKeyEq : ∀ p ∈ g.edges, (p : String × Edge).2.id = p.1
  srcMem : ∀ p ∈ g.edges, dictContains g.nodes (p : String × Edge).2.source = true
  tgtMem : ∀ p ∈ g.edges, dictContains g.nodes (p : String × Edge).2.target = true
  adjKeysEq : dictKeys g.adj = dictKeys g.nodes
  radjKeysEq : dictKeys g.radj = dictKeys g.nodes
  adjBucketsOk : ∀ p ∈ g.adj, ∀ eid ∈ (p : String × List String).2,
    (dictGet g.edges eid).map Edge.source = some p.1
  radjBucketsOk : ∀ p ∈ g.radj, ∀ eid ∈ (p : String × List String).2,
    (dictGet g.edges eid).map Edge.target = some p.1
  adjBucketNodup : ∀ p ∈ g.adj, ((p : String × List String).2).Nodup
  radjBucketNodup : ∀ p ∈ g.radj, ((p : String × List String).2).Nodup
  adjCover : ∀ p ∈ g.edges,
    (p : String × Edge).1 ∈ dictGetD g.adj p.2.source []
  radjCover : ∀ p ∈ g.edges,
    (p : String × Edge).1 ∈ dictGetD g.radj p.2.target []

/-- Whether the value stored under a key (if any) is not a string, so a
numeric read of it cannot raise TypeError. -/
def numericAt (m : Dict MetaVal) (k : String) : Bool :=
  match dictGet m k with
  | some (.str _) => false
  | _ => true

/-- The metadata fields the core reads numerically hold numbers (or
bools): capacity and resource_demand on nodes, severity on edges. -/
@[mk_iff metaOKIff]
structure MetaOK (g : RealityGraph) : Prop where
  nodeCapacity : ∀ p ∈ g.nodes,
    numericAt (p : String × Node).2.metadata "capacity" = true
  nodeDemand : ∀ p ∈ g.nodes,
    numericAt (p : String × Node).2.metadata "resource_demand" = true
  edgeSeverity : ∀ p ∈ g.edges,
    numericAt (p : String × Edge).2.metadata "severity" = true

instance (g : RealityGraph) : Decidable (Invariant g) :=
  decidable_of_iff _ (invariantIff g).symm

instance (g : RealityGraph) : Decidable (MetaOK g) :=
  decidable_of_iff _ (metaOKIff g).symm

/-! Pure (total) readers, equal to the monadic ones on well-typed
metadata; used to state the refinement theorems. -/

def valNumD : MetaVal → ℚ
  | .num q => q
  | .boolean b => if b then 1 else 0
  | .str _ => 0

def numD (m : Dict MetaVal) (k : String) (dflt : ℚ) : ℚ :=
  match dictGet m k with
  | none => dflt
  | some v => valNumD v

/-- The incoming Requires edges of a node, read off the reverse
adjacency bucket. -/
def requiresEdgesPure (g : RealityGraph) (nodeId : String) : List Edge :=
  ((dictGetD g.radj nodeId []).filterMap
    (fun eid => dictGet g.edges eid)).filter (fun e => e.type == .requires)

/-- The consumers of a resource: the source nodes of its incoming
Requires edges. -/
def consumersPure (g : RealityGraph) (nodeId : String) : List Node :=
  (requiresEdgesPure g nodeId).filterMap (fun e => dictGet g.nodes e.source)

/-- Detector 2, per resource, as the (amended) specification words it:
with at least two consumers, when the summed resource_demand (default
1 per consumer) exceeds the capacity (DEFAULT 1, not unbounded), one
contradiction between the first two consumers at severity 0.85. -/
def resourceContraPure (g : RealityGraph) (r : Node) : Option Contradiction :=
  match consumersPure g r.id with
  | c0 :: c1 :: rest =>
    let consumers := c0 :: c1 :: rest
    let totalDemand :=
      (consumers.map (fun c => numD c.metadata "resource_demand" 1)).sum
    let capacity := numD r.metadata "capacity" 1
    if capacity < totalDemand then
      some
        { nodeA := c0
          nodeB := c1
          explanation := .resourceOversub r.name totalDemand capacity
          severity := 17 / 20
          causalChain := [c0.name, "requires " ++ r.name, c1.name,
                          "resource_exhausted"] }
    else none
  | _ => none

/-- FIC resource exhaustion, per resource, as the (amended)
specification words it: with at least ONE consumer, when the summed
demand exceeds the capacity, which DEFAULTS TO UNBOUNDED (an absent
capacity entry never triggers); certainty min(1, demand/capacity - 1)
when capacity is positive, and exactly 1 when capacity is 0 (or
negative), with no division error in either case. -/
def resourceExhaustPure (g : RealityGraph) (r : Node) : Option CollapsePath :=
  let reqEdges := requiresEdgesPure g r.id
  if reqEdges.isEmpty then none
  else
    let totalDemand :=
      (reqEdges.map (fun e =>
        ((dictGet g.nodes e.source).map
          (fun n => numD n.metadata "resource_demand" 1)).getD 1)).sum
    match dictGet r.metadata "capacity" with
    | none => none
    | some v =>
      let capacity := valNumD v
      if capacity < totalDemand then
        some
          { pathType := .resourceExhaustion
            nodes := reqEdges.map Edge.source ++ [r.id]
            certainty :=
              if 0 < capacity then min 1 (totalDemand / capacity - 1) else 1
            explanation :=
              .resourceExhausted r.name totalDemand (some capacity) }
      else none

/-! Basic lemmas about the dict model. -/

theorem dictGet_eq_some_mem {α : Type} {d : Dict α} {k : String} {v : α}
    (h : dictGet d k = some v) : (k, v) ∈ d := by
  unfold dictGet at h
  cases hfind : d.find? (fun p => p.1 == k) with
  | none => simp [hfind] at h
  | some p =>
    have hp := List.find?_some hfind
    have hmem := List.mem_of_find?_eq_some hfind
    simp [hfind] at h
    have : p.1 = k := by simpa using hp
    rw [← h, ← this]
    simpa using hmem

theorem dictGet_isSome_of_contains {α : Type} {d : Dict α} {k : String}
    (h : dictContains d k = true) : (dictGet d k).isSome := by
  unfold dictContains at h
  cases hfind : d.find? (fun p => p.1 == k) with
  | none =>
    have hall := List.find?_eq_none.mp hfind
    rcases List.any_eq_true.mp h with ⟨p, hmem, hp⟩
    exact absurd hp (by simpa using hall p hmem)
  | some q =>
    unfold dictGet
    rw [hfind]
    simp

theorem dictGet_eq_none_of_not_contains {α : Type} {d : Dict α} {k : String}
    (h : dictContains d k = false) : dictGet d k = none := by
  unfold dictContains at h
  unfold dictGet
  have : ∀ p ∈ d, ¬ (p.1 == k) = true := by
    intro p hp hpk
    have : d.any (fun p => p.1 == k) = true := List.any_eq_true.mpr ⟨p, hp, hpk⟩
    rw [h] at this
    exact Bool.false_ne_true this
  rw [List.find?_eq_none.mpr this]
  rfl

theorem contains_of_dictGet_eq_some {α : Type} {d : Dict α} {k : String}
    {v : α} (h : dictGet d k = some v) : dictContains d k = true := by
  by_contra hc
  have := dictGet_eq_none_of_not_contains (Bool.eq_false_iff.mpr hc)
  rw [this] at h
  exact Option.noConfusion h

theorem mem_dictVals_of_get {α : Type} {d : Dict α} {k : String} {v : α}
    (h : dictGet d k = some v) : v ∈ dictVals d := by
  have := dictGet_eq_some_mem h
  exact List.mem_map.mpr ⟨(k, v), this, rfl⟩

theorem dictContains_iff_mem_keys {α : Type} (d : Dict α) (k : String) :
    dictContains d k = true ↔ k ∈ dictKeys d := by
  unfold dictContains dictKeys
  rw [List.any_eq_true]
  constructor
  · rintro ⟨p, hp, hk⟩
    have : p.1 = k := by simpa using hk
    exact this ▸ List.mem_map.mpr ⟨p, hp, rfl⟩
  · intro h
    rcases List.mem_map.mp h with ⟨p, hp, hk⟩
    exact ⟨p, hp, by simp [hk]⟩

theorem dictContains_congr_keys {α β : Type} {d : Dict α} {d' : Dict β}
    (h : dictKeys d = dictKeys d') (k : String) :
    dictContains d k = dictContains d' k := by
  have h1 := dictContains_iff_mem_keys d k
  have h2 := dictContains_iff_mem_keys d' k
  rw [h] at h1
  cases hc : dictContains d' k with
  | false =>
    cases hd : dictContains d k with
    | false => rfl
    | true => exact absurd (h2.mpr (h1.mp hd)) (by simp [hc])
  | true => exact h1.mpr (h2.mp hc)

/-- The bucket returned by dictGetD is either the default or a member
pair's value. -/
theorem dictGetD_cases {α : Type} (d : Dict α) (k : String) (dflt : α) :
    dictGetD d k dflt = dflt ∨ (k, dictGetD d k dflt) ∈ d := by
  cases hget : dictGet d k with
  | none => left; unfold dictGetD; rw [hget]; rfl
  | some v =>
    right
    unfold dictGetD
    rw [hget]
    exact dictGet_eq_some_mem hget

/-! Lemmas for computations in the Except monad. -/

theorem exBind_ok {α β : Type} (a : α) (f : α → Except String β) :
    (Except.ok a >>= f) = f a := rfl

theorem exBind_error {α β : Type} (e : String) (f : α → Except String β) :
    ((Except.error e : Except String α) >>= f) = .error e := rfl

/-- mapM in Except computes the filterMap of a pointwise-succeeding
partial function. -/
theorem mapM_ok_of_forall {α β : Type} (f : α → Except String β)
    (fp : α → Option β) :
    ∀ (l : List α), (∀ a ∈ l, ∃ b, f a = .ok b ∧ fp a = some b) →
    l.mapM f = .ok (l.filterMap fp)
  | [], _ => rfl
  | a :: t, h => by
    rcases h a (List.mem_cons_self a t) with ⟨b, hfa, hfpa⟩
    have ht := mapM_ok_of_forall f fp t (fun x hx => h x (List.mem_cons_of_mem a hx))
    rw [List.mapM_cons, List.filterMap_cons, hfa, hfpa]
    simp only [exBind_ok]
    rw [ht]
    rfl

/-- foldlM in Except where every step appends an optional element. -/
theorem foldlM_ok_append {α β : Type} (f : List β → α → Except String (List β))
    (opt : α → Option β) :
    ∀ (l : List α),
    (∀ acc a, a ∈ l → f acc a = .ok (acc ++ (opt a).toList)) →
    ∀ (init : List β), l.foldlM f init = .ok (init ++ l.filterMap opt)
  | [], _, init => by simp; rfl
  | a :: t, h, init => by
    rw [List.foldlM_cons, h init a (List.mem_cons_self a t)]
    simp only [exBind_ok]
    rw [foldlM_ok_append f opt t (fun acc x hx => h acc x (List.mem_cons_of_mem a hx))]
    cases hopt : opt a <;> simp [hopt, List.filterMap_cons]

instance {ε α : Type} [DecidableEq ε] [DecidableEq α] :
    DecidableEq (Except ε α) := fun x y =>
  match x, y with
  | .ok a, .ok b =>
    if h : a = b then .isTrue (by rw [h])
    else .isFalse (fun hh => by injection hh; contradiction)
  | .error e, .error f =>
    if h : e = f then .isTrue (by rw [h])
    else .isFalse (fun hh => by injection hh; contradiction)
  | .ok _, .error _ => .isFalse (fun hh => Except.noConfusion hh)
  | .error _, .ok _ => .isFalse (fun hh => Except.noConfusion hh)

/-! Pointwise lemmas about dict operations, used for the add_node and
add_edge claims. -/

theorem dictGet_cons {α : Type} (p : String × α) (t : Dict α) (k : String) :
    dictGet (p :: t) k = if p.1 == k then some p.2 else dictGet t k := by
  unfold dictGet
  rw [List.find?_cons]
  by_cases h : p.1 == k
  · simp [h]
  · simp [h]

theorem dictContains_cons {α : Type} (p : String × α) (t : Dict α)
    (k : String) :
    dictContains (p :: t) k = (p.1 == k || dictContains t k) := by
  simp [dictContains]

theorem dictInsert_of_not_contains {α : Type} {d : Dict α} {k : String}
    (v : α) (h : dictContains d k = false) :
    dictInsert d k v = d ++ [(k, v)] := by
  unfold dictInsert
  rw [h]
  simp

theorem dictGet_append_left {α : Type} {d : Dict α} {k : String}
    (d' : Dict α) (h : dictContains d k = true) :
    dictGet (d ++ d') k = dictGet d k := by
  induction d with
  | nil => simp [dictContains] at h
  | cons p t ih =>
    rw [List.cons_append, dictGet_cons, dictGet_cons]
    by_cases hp : p.1 == k
    · simp [hp]
    · have hpf : (p.1 == k) = false := Bool.eq_false_iff.mpr hp
      rw [dictContains_cons, hpf] at h
      simp only [Bool.false_or] at h
      simp [hpf, ih h]

theorem dictGet_append_right {α : Type} {d : Dict α} {k : String}
    (d' : Dict α) (h : dictContains d k = false) :
    dictGet (d ++ d') k = dictGet d' k := by
  induction d with
  | nil => rfl
  | cons p t ih =>
    rw [dictContains_cons] at h
    rcases Bool.or_eq_false_iff.mp h with ⟨h1, h2⟩
    rw [List.cons_append, dictGet_cons, h1]
    simp only [Bool.false_eq_true, if_false]
    exact ih h2

theorem dictKeys_dictInsert_of_contains {α : Type} {d : Dict α} {k : String}
    (v : α) (h : dictContains d k = true) :
    dictKeys (dictInsert d k v) = dictKeys d := by
  unfold dictInsert
  rw [h]
  simp only [if_pos]
  unfold dictKeys
  rw [List.map_map]
  apply List.map_congr_left
  intro p _
  simp only [Function.comp_apply]
  split <;> rfl

theorem dictGet_map_replace_self {α : Type} (v : α) :
    ∀ (d : Dict α) (k : String), dictContains d k = true →
    dictGet (d.map (fun p => if p.1 == k then (p.1, v) else p)) k = some v
  | [], k, h => by simp [dictContains] at h
  | p :: t, k, h => by
    rw [List.map_cons]
    by_cases hp : p.1 == k
    · rw [if_pos hp, dictGet_cons]
      simp [hp]
    · have hpf : (p.1 == k) = false := Bool.eq_false_iff.mpr hp
      rw [if_neg hp, dictGet_cons, hpf]
      simp only [Bool.false_eq_true, if_false]
      rw [dictContains_cons, hpf] at h
      simp only [Bool.false_or] at h
      exact dictGet_map_replace_self v t k h

theorem dictGet_map_replace_ne {α : Type} (v : α) :
    ∀ (d : Dict α) (k k' : String), k' ≠ k →
    dictGet (d.map (fun p => if p.1 == k then (p.1, v) else p)) k' =
      dictGet d k'
  | [], _, _, _ => rfl
  | p :: t, k, k', h => by
    rw [List.map_cons]
    by_cases hp : p.1 == k
    · rw [if_pos hp, dictGet_cons, dictGet_cons]
      have hne : (p.1 == k') = false := by
        have : p.1 = k := beq_iff_eq.mp hp
        exact beq_eq_false_iff_ne.mpr (by rw [this]; exact fun hh => h hh.symm)
      rw [hne]
      simp only [Bool.false_eq_true, if_false]
      exact dictGet_map_replace_ne v t k k' h
    · rw [if_neg hp, dictGet_cons, dictGet_cons]
      by_cases hk : p.1 == k'
      · simp [hk]
      · have hkf : (p.1 == k') = false := Bool.eq_false_iff.mpr hk
        rw [hkf]
        simp only [Bool.false_eq_true, if_false]
        exact dictGet_map_replace_ne v t k k' h

theorem dictGet_dictInsert_self {α : Type} (d : Dict α) (k : String)
    (v : α) : dictGet (dictInsert d k v) k = some v := by
  unfold dictInsert
  by_cases h : dictContains d k
  · rw [if_pos h]
    exact dictGet_map_replace_self v d k h
  · rw [if_neg h]
    rw [dictGet_append_right _ (Bool.eq_false_iff.mpr h), dictGet_cons]
    simp

theorem dictGet_dictInsert_ne {α : Type} (d : Dict α) (k k' : String)
    (v : α) (h : k' ≠ k) :
    dictGet (dictInsert d k v) k' = dictGet d k' := by
  unfold dictInsert
  by_cases hc : dictContains d k
  · rw [if_pos hc]
    exact dictGet_map_replace_ne v d k k' h
  · rw [if_neg hc]
    by_cases hk : dictContains d k'
    · exact dictGet_append_left _ hk
    · rw [dictGet_append_right _ (Bool.eq_false_iff.mpr hk), dictGet_cons]
      rw [dictGet_eq_none_of_not_contains (Bool.eq_false_iff.mpr hk)]
      have : (k == k') = false :=
        beq_eq_false_iff_ne.mpr (fun hh => h hh.symm)
      rw [this]
      simp only [Bool.false_eq_true, if_false]
      rfl

/-! Claim C8: algebra of the probabilistic-OR combinator. -/

/-- C8: the probabilistic-OR combinator acc + p - acc*p used by the FIC
satisfies, for every certainty x in the unit interval: combining x
with 0 returns x, combining x with 1 returns 1, and the operation is
commutative. -/
theorem c8_theorem (x : ℚ) (h0 : 0 ≤ x) (h1 : x ≤ 1) :
    pOr x 0 = x ∧ pOr x 1 = 1 ∧ ∀ y : ℚ, pOr x y = pOr y x := by
  refine ⟨?_, ?_, fun y => ?_⟩ <;> unfold pOr <;> ring

theorem c8_witness :
    pOr (1 / 2) 0 = 1 / 2 ∧ pOr (1 / 2) 1 = 1 ∧
    pOr (1 / 2) (1 / 3) = pOr (1 / 3) (1 / 2) := by
  have h := c8_theorem (1 / 2) (by norm_num) (by norm_num)
  exact ⟨h.1, h.2.1, h.2.2 (1 / 3)⟩

/-! Claim C9: add_edge on a dangling endpoint fails with a
reference-validity error. Both endpoint checks precede every mutation
in the source, and in this embedding the failing call returns only the
error, never a graph, so the caller's graph is untouched. -/

/-- C9: for every graph and every edge whose source id or target id is
not a node of the graph, add_edge fails with a reference-validity
error naming the first missing endpoint, and produces no modified
graph (the validation precedes all three structure updates). -/
theorem c9_theorem (g : RealityGraph) (e : Edge)
    (h : dictContains g.nodes e.source = false ∨
         dictContains g.nodes e.target = false) :
    addEdge g e =
      .error (if dictContains g.nodes e.source then
                "Target node " ++ e.target ++ " not found"
              else "Source node " ++ e.source ++ " not found") := by
  unfold addEdge
  rcases h with h | h
  · simp [h]
  · by_cases hs : dictContains g.nodes e.source
    · simp [h, hs]
    · simp [hs]

theorem c9_witness :
    addEdge emptyGraph ⟨"e0", "X", "Y", .causes, 1, 1, []⟩ =
      .error ("Source node " ++ "X" ++ " not found") := by
  have h := c9_theorem emptyGraph ⟨"e0", "X", "Y", .causes, 1, 1, []⟩
    (Or.inl (by decide))
  simpa using h

theorem dictContains_append_left {α : Type} {d : Dict α} {k : String}
    (d' : Dict α) (h : dictContains d k = true) :
    dictContains (d ++ d') k = true := by
  unfold dictContains at *
  rw [List.any_append, h]
  rfl

theorem dictGetD_append_left {α : Type} {d : Dict α} {k : String}
    (d' : Dict α) (v : α) (h : dictContains d k = true) :
    dictGetD (d ++ d') k v = dictGetD d k v := by
  unfold dictGetD
  rw [dictGet_append_left d' h]

theorem dictKeys_append {α : Type} (d d' : Dict α) :
    dictKeys (d ++ d') = dictKeys d ++ dictKeys d' := by
  unfold dictKeys
  exact List.map_append _ _ _

/-- Membership in a key-replacing dictInsert: the pair is either an old
pair with a different key, or carries the inserted value under the old
pair's key (which then equals the inserted key). -/
theorem mem_dictInsert_replace {α : Type} {d : Dict α} {k : String}
    {v : α} {p : String × α}
    (hc : dictContains d k = true)
    (h : p ∈ dictInsert d k v) :
    (p ∈ d) ∨ (p.1 = k ∧ p.2 = v) := by
  unfold dictInsert at h
  rw [if_pos hc] at h
  rcases List.mem_map.mp h with ⟨q, hq, hfq⟩
  by_cases hqk : q.1 == k
  · right
    rw [if_pos hqk] at hfq
    have : q.1 = k := beq_iff_eq.mp hqk
    rw [← hfq]
    exact ⟨this, rfl⟩
  · left
    rw [if_neg hqk] at hfq
    rw [← hfq]
    exact hq

/-! Claim C10: add_node never fails; a fresh id is inserted with empty
adjacency buckets, a present id silently replaces the stored node while
leaving edges and both adjacency indices untouched (so all incident
edges remain incident), and the structural invariant is preserved. -/

/-- C10: behaviour of add_node on fresh and on already-present node
ids, plus preservation of the structural (lock-step) invariant. -/
theorem c10_theorem (g : RealityGraph) (n : Node) (inv : Invariant g) :
    (dictContains g.nodes n.id = false →
      addNode g n =
        { nodes := g.nodes ++ [(n.id, n)]
          edges := g.edges
          adj := g.adj ++ [(n.id, [])]
          radj := g.radj ++ [(n.id, [])] }) ∧
    (dictContains g.nodes n.id = true →
      (addNode g n).edges = g.edges ∧
      (addNode g n).adj = g.adj ∧
      (addNode g n).radj = g.radj ∧
      dictGet (addNode g n).nodes n.id = some n ∧
      ∀ k, k ≠ n.id → dictGet (addNode g n).nodes k = dictGet g.nodes k) ∧
    Invariant (addNode g n) := by
  have hadjc := dictContains_congr_keys inv.adjKeysEq n.id
  have hradjc := dictContains_congr_keys inv.radjKeysEq n.id
  refine ⟨?_, ?_, ?_⟩
  · intro hc
    unfold addNode
    rw [dictInsert_of_not_contains n hc, hadjc, hradjc, hc]
    simp
  · intro hc
    unfold addNode
    rw [hadjc, hradjc, hc]
    refine ⟨rfl, by simp, by simp, ?_, ?_⟩
    · exact dictGet_dictInsert_self g.nodes n.id n
    · intro k hk
      exact dictGet_dictInsert_ne g.nodes n.id k n hk
  · by_cases hc : dictContains g.nodes n.id
    · -- present id: nodes replaced in place, everything else untouched
      have hg : addNode g n =
          { g with nodes := dictInsert g.nodes n.id n } := by
        unfold addNode
        rw [hadjc, hradjc, hc]
        simp
      rw [hg]
      have hkeys : dictKeys (dictInsert g.nodes n.id n) = dictKeys g.nodes :=
        dictKeys_dictInsert_of_contains n hc
      refine ⟨?_, inv.edgesNodup, ?_, inv.edgeKeyEq, ?_, ?_, ?_, ?_,
              inv.adjBucketsOk, inv.radjBucketsOk, inv.adjBucketNodup,
              inv.radjBucketNodup, inv.adjCover, inv.radjCover⟩
      · rw [hkeys]; exact inv.nodesNodup
      · intro p hp
        rcases mem_dictInsert_replace hc hp with h | ⟨h1, h2⟩
        · exact inv.nodeKeyEq p h
        · rw [h2, h1]
      · intro p hp
        rw [dictContains_congr_keys hkeys]
        exact inv.srcMem p hp
      · intro p hp
        rw [dictContains_congr_keys hkeys]
        exact inv.tgtMem p hp
      · rw [hkeys]; exact inv.adjKeysEq
      · rw [hkeys]; exact inv.radjKeysEq
    · -- fresh id: appended node and empty buckets
      have hcf : dictContains g.nodes n.id = false := Bool.eq_false_iff.mpr hc
      have hg : addNode g n =
          { nodes := g.nodes ++ [(n.id, n)]
            edges := g.edges
            adj := g.adj ++ [(n.id, [])]
            radj := g.radj ++ [(n.id, [])] } := by
        unfold addNode
        rw [dictInsert_of_not_contains n hcf, hadjc, hradjc, hcf]
        simp
      rw [hg]
      have hnotmem : n.id ∉ dictKeys g.nodes :=
        fun h => hc ((dictContains_iff_mem_keys g.nodes n.id).mpr h)
      refine ⟨?_, inv.edgesNodup, ?_, inv.edgeKeyEq, ?_, ?_, ?_, ?_, ?_,
              ?_, ?_, ?_, ?_, ?_⟩
      · rw [dictKeys_append, List.nodup_append]
        refine ⟨inv.nodesNodup, List.nodup_singleton n.id, ?_⟩
        intro x hx hx2
        have : x = n.id := by simpa [dictKeys] using hx2
        exact hnotmem (this ▸ hx)
      · intro p hp
        rcases List.mem_append.mp hp with h | h
        · exact inv.nodeKeyEq p h
        · have : p = (n.id, n) := by simpa using h
          rw [this]
      · intro p hp
        exact dictContains_append_left _ (inv.srcMem p hp)
      · intro p hp
        exact dictContains_append_left _ (inv.tgtMem p hp)
      · rw [dictKeys_append, dictKeys_append, inv.adjKeysEq]
        rfl
      · rw [dictKeys_append, dictKeys_append, inv.radjKeysEq]
        rfl
      · intro p hp eid he
        rcases List.mem_append.mp hp with h | h
        · exact inv.adjBucketsOk p h eid he
        · have : p = (n.id, ([] : List String)) := by simpa using h
          rw [this] at he
          exact absurd he (List.not_mem_nil eid)
      · intro p hp eid he
        rcases List.mem_append.mp hp with h | h
        · exact inv.radjBucketsOk p h eid he
        · have : p = (n.id, ([] : List String)) := by simpa using h
          rw [this] at he
          exact absurd he (List.not_mem_nil eid)
      · intro p hp
        rcases List.mem_append.mp hp with h | h
        · exact inv.adjBucketNodup p h
        · have : p = (n.id, ([] : List String)) := by simpa using h
          rw [this]
          exact List.nodup_nil
      · intro p hp
        rcases List.mem_append.mp hp with h | h
        · exact inv.radjBucketNodup p h
        · have : p = (n.id, ([] : List String)) := by simpa using h
          rw [this]
          exact List.nodup_nil
      · intro p hp
        have hsrc : dictContains g.adj p.2.source = true := by
          rw [dictContains_congr_keys inv.adjKeysEq]
          exact inv.srcMem p hp
        rw [dictGetD_append_left _ _ hsrc]
        exact inv.adjCover p hp
      · intro p hp
        have htgt : dictContains g.radj p.2.target = true := by
          rw [dictContains_congr_keys inv.radjKeysEq]
          exact inv.tgtMem p hp
        rw [dictGetD_append_left _ _ htgt]
        exact inv.radjCover p hp

theorem c10_witness :
    addNode emptyGraph ⟨"A", .decision, "A", "", [], 1 / 2⟩ =
      { nodes := [("A", ⟨"A", .decision, "A", "", [], 1 / 2⟩)]
        edges := []
        adj := [("A", [])]
        radj := [("A", [])] } := by
  have h := (c10_theorem emptyGraph ⟨"A", .decision, "A", "", [], 1 / 2⟩
    (by decide)).1 (by decide)
  simpa using h

/-! Claim C2: the fatal-violation branch of the Existence Judge. The
claim as stated is wrong about the primary reason: the source sets
primary_reason to "Fatal violation of AXIOM_NAME" and places the
violation's explanation as the first supporting-evidence entry. -/

def c2Violation : AxiomViolation :=
  { axiomName := "CONTRADICTION_LAW"
    violationType := .contradiction
    severity := 19 / 20
    causalChain := []
    explanation := .lit "boom" }

section
attribute [local semireducible] Rat.mul Rat.inv Rat.add Rat.sub

/-- C2 counterexample: a fatal violation for which render_verdict does
return the fatal-branch verdict, whose primary reason is NOT the
violation's explanation (it is the fixed "Fatal violation of NAME"
message; the explanation appears in the supporting evidence). -/
theorem c2_counterexample :
    isFatal c2Violation = true ∧
    renderVerdict emptyGraph [c2Violation] 0 [] =
      .ok (verdictFatalAxiom emptyGraph [c2Violation] 0 [] c2Violation) ∧
    (verdictFatalAxiom emptyGraph [c2Violation] 0 [] c2Violation).primaryReason ≠
      c2Violation.explanation := by
  refine ⟨by decide, by decide, ?_⟩
  intro h
  exact Msg.noConfusion h

end

/-- C2 (amended): whenever the filtered list of fatal violations is
non-empty (in particular also when FII is at least 0.9 at the same
time), render_verdict returns the branch-1 verdict built from the FIRST
fatal violation: NotPermissible, certainty 1, primary reason "Fatal
violation of <axiom name>", and that violation's explanation as the
first supporting-evidence entry; no later branch of the decision
procedure is consulted. -/
theorem c2_theorem (g : RealityGraph) (violations : List AxiomViolation)
    (fii : ℚ) (cfResults : List CounterfactualResult)
    (v : AxiomViolation) (rest : List AxiomViolation)
    (h : violations.filter isFatal = v :: rest) :
    renderVerdict g violations fii cfResults =
      .ok (verdictFatalAxiom g violations fii cfResults v) ∧
    (verdictFatalAxiom g violations fii cfResults v).verdict =
      .notPermissible ∧
    (verdictFatalAxiom g violations fii cfResults v).certainty = 1 ∧
    (verdictFatalAxiom g violations fii cfResults v).primaryReason =
      .fatalWith v.axiomName ∧
    (verdictFatalAxiom g violations fii cfResults v).supportingEvidence.head? =
      some v.explanation := by
  refine ⟨?_, rfl, rfl, rfl, rfl⟩
  unfold renderVerdict
  rw [h]

theorem c2_witness :
    renderVerdict emptyGraph [c2Violation] (99 / 100) [] =
      .ok (verdictFatalAxiom emptyGraph [c2Violation] (99 / 100) []
            c2Violation) ∧
    (verdictFatalAxiom emptyGraph [c2Violation] (99 / 100) []
      c2Violation).verdict = .notPermissible ∧
    (verdictFatalAxiom emptyGraph [c2Violation] (99 / 100) []
      c2Violation).certainty = 1 ∧
    (verdictFatalAxiom emptyGraph [c2Violation] (99 / 100) []
      c2Violation).primaryReason = .fatalWith c2Violation.axiomName ∧
    (verdictFatalAxiom emptyGraph [c2Violation] (99 / 100) []
      c2Violation).supportingEvidence.head? = some c2Violation.explanation :=
  c2_theorem emptyGraph [c2Violation] (99 / 100) [] c2Violation []
    (by unfold c2Violation isFatal; norm_num)

/-! Claim C1: the end-to-end resource scenario (R1 capacity 10, two
decisions each requiring it with demand 8). The FIC's collapse-path
discovery starts from find_contradictions, whose detector 2 ALSO fires
on this graph (16 > 10 with two consumers), so discovery yields TWO
collapse paths, not one: a contradiction path with certainty 0.85 and
the resource-exhaustion path with certainty min(1, 16/10 - 1) = 0.6,
and compute() with no violations returns their probabilistic OR
0.85 + 0.6 - 0.85*0.6 = 0.94, not approximately 0.6. -/

def c1Graph : RealityGraph :=
  { nodes :=
      [("R1", ⟨"R1", .resource, "R1", "", [("capacity", .num 10)], 1 / 2⟩),
       ("D1", ⟨"D1", .decision, "D1", "",
               [("resource_demand", .num 8)], 1 / 2⟩),
       ("D2", ⟨"D2", .decision, "D2", "",
               [("resource_demand", .num 8)], 1 / 2⟩)]
    edges :=
      [("e1", ⟨"e1", "D1", "R1", .requires, 1, 1, []⟩),
       ("e2", ⟨"e2", "D2", "R1", .requires, 1, 1, []⟩)]
    adj := [("R1", []), ("D1", ["e1"]), ("D2", ["e2"])]
    radj := [("R1", ["e1", "e2"]), ("D1", []), ("D2", [])] }

section
attribute [local semireducible] Rat.mul Rat.inv Rat.add Rat.sub

/-- C1 counterexample: on the claimed scenario the collapse-path
discovery does NOT yield exactly one path, and compute() does NOT
return (approximately) 0.6 = min(1, 16/10 - 1). -/
theorem c1_counterexample :
    (identifyCollapsePaths c1Graph).map List.length ≠ .ok 1 ∧
    compute c1Graph [] ≠ .ok (3 / 5) := by
  exact ⟨by decide, by decide⟩

/-- C1 (amended): the discovery yields exactly two collapse paths: the
contradiction path produced from the oversubscription contradiction of
detector 2 (certainty 0.85) and the resource-exhaustion path with
certainty min(1, 16/10 - 1) = 0.6; compute() with an empty violation
list returns 0.85 + 0.6 - 0.85*0.6 = 0.94 (structure adjustment is 0
on this graph). -/
theorem c1_theorem :
    identifyCollapsePaths c1Graph =
      .ok [{ pathType := .contradiction
             nodes := ["D1", "requires R1", "D2", "resource_exhausted"]
             certainty := 17 / 20
             explanation := .resourceOversub "R1" 16 10 },
           { pathType := .resourceExhaustion
             nodes := ["D1", "D2", "R1"]
             certainty := 3 / 5
             explanation := .resourceExhausted "R1" 16 (some 10) }] ∧
    compute c1Graph [] = .ok (47 / 50) := by
  exact ⟨by decide, by decide⟩

end

/-! Claim C3: resource-oversubscription detector. The claim's reading of
the capacity default is wrong: a Resource node with NO capacity
metadata entry has capacity 1 (the source's .get default), not
unbounded capacity, so the detector can fire on such a node. -/

def c3Graph : RealityGraph :=
  { nodes :=
      [("R", ⟨"R", .resource, "R", "", [], 1 / 2⟩),
       ("D1", ⟨"D1", .decision, "D1", "", [], 1 / 2⟩),
       ("D2", ⟨"D2", .decision, "D2", "", [], 1 / 2⟩)]
    edges :=
      [("e1", ⟨"e1", "D1", "R", .requires, 1, 1, []⟩),
       ("e2", ⟨"e2", "D2", "R", .requires, 1, 1, []⟩)]
    adj := [("R", []), ("D1", ["e1"]), ("D2", ["e2"])]
    radj := [("R", ["e1", "e2"]), ("D1", []), ("D2", [])] }

section
attribute [local semireducible] Rat.mul Rat.inv Rat.add Rat.sub

/-- C3 counterexample: a Resource node with no capacity metadata entry
and two consumers of default demand 1 each DOES trigger the detector
(2 > default capacity 1), refuting "unbounded capacity, never
triggers". -/
theorem c3_counterexample :
    dictGet (⟨"R", .resource, "R", "", [], 1 / 2⟩ : Node).metadata
      "capacity" = none ∧
    findResourceContradictions c3Graph =
      .ok [{ nodeA := ⟨"D1", .decision, "D1", "", [], 1 / 2⟩
             nodeB := ⟨"D2", .decision, "D2", "", [], 1 / 2⟩
             explanation := .resourceOversub "R" 2 1
             severity := 17 / 20
             causalChain := ["D1", "requires R", "D2",
                             "resource_exhausted"] }] := by
  exact ⟨rfl, by decide⟩

end

/-! Machinery relating the monadic detector bodies to their pure
counterparts on well-formed graphs. -/

theorem exists_key_of_mem_dictVals {α : Type} {d : Dict α} {v : α}
    (h : v ∈ dictVals d) : ∃ k, (k, v) ∈ d := by
  rcases List.mem_map.mp h with ⟨p, hp, hv⟩
  refine ⟨p.1, ?_⟩
  cases p with
  | mk a b =>
    cases hv
    exact hp

theorem metaGetNum_ok_of_numericAt (m : Dict MetaVal) (k : String) (d : ℚ)
    (h : numericAt m k = true) : metaGetNum m k d = .ok (numD m k d) := by
  unfold metaGetNum numD numericAt at *
  cases hget : dictGet m k with
  | none => rfl
  | some v =>
    rw [hget] at h
    cases v with
    | num q => rfl
    | boolean b => rfl
    | str s => exact Bool.noConfusion h

/-- Every edge id in an adjacency bucket resolves in the edge dict (from
the lock-step invariant), so get_incoming_edges succeeds and returns
the bucket's filterMap through the edge dict. -/
theorem getIncomingEdges_ok (g : RealityGraph) (inv : Invariant g)
    (nodeId : String) :
    getIncomingEdges g nodeId =
      .ok ((dictGetD g.radj nodeId []).filterMap
            (fun eid => dictGet g.edges eid)) := by
  unfold getIncomingEdges
  apply mapM_ok_of_forall
  intro eid he
  rcases dictGetD_cases g.radj nodeId [] with hd | hd
  · rw [hd] at he
    exact absurd he (List.not_mem_nil eid)
  · have := inv.radjBucketsOk _ hd eid he
    cases hget : dictGet g.edges eid with
    | none => rw [hget] at this; exact Option.noConfusion this
    | some e => exact ⟨e, by unfold edgesIdx; rw [hget], rfl⟩

theorem getOutgoingEdges_ok (g : RealityGraph) (inv : Invariant g)
    (nodeId : String) :
    getOutgoingEdges g nodeId =
      .ok ((dictGetD g.adj nodeId []).filterMap
            (fun eid => dictGet g.edges eid)) := by
  unfold getOutgoingEdges
  apply mapM_ok_of_forall
  intro eid he
  rcases dictGetD_cases g.adj nodeId [] with hd | hd
  · rw [hd] at he
    exact absurd he (List.not_mem_nil eid)
  · have := inv.adjBucketsOk _ hd eid he
    cases hget : dictGet g.edges eid with
    | none => rw [hget] at this; exact Option.noConfusion this
    | some e => exact ⟨e, by unfold edgesIdx; rw [hget], rfl⟩

theorem mem_bucket_filterMap_edges {g : RealityGraph} {d : Dict (List String)}
    {nodeId : String} {e : Edge}
    (h : e ∈ (dictGetD d nodeId []).filterMap (fun eid => dictGet g.edges eid)) :
    ∃ k, (k, e) ∈ g.edges := by
  rcases List.mem_filterMap.mp h with ⟨eid, _, hget⟩
  exact ⟨eid, dictGet_eq_some_mem hget⟩

/-- nodes[...] lookups succeed on every edge source of a well-formed
graph. -/
theorem sources_mapM_ok (g : RealityGraph) (inv : Invariant g)
    (l : List Edge) (hl : ∀ e ∈ l, ∃ k, (k, e) ∈ g.edges) :
    l.mapM (fun e => nodesIdx g e.source) =
      .ok (l.filterMap (fun e => dictGet g.nodes e.source)) := by
  apply mapM_ok_of_forall
  intro e he
  rcases hl e he with ⟨k, hk⟩
  have hc := inv.srcMem (k, e) hk
  have := dictGet_isSome_of_contains hc
  cases hget : dictGet g.nodes e.source with
  | none => rw [hget] at this; exact Bool.noConfusion this
  | some nd => exact ⟨nd, by unfold nodesIdx; rw [hget], rfl⟩

theorem demands_mapM_ok (l : List Node)
    (hl : ∀ c ∈ l, numericAt c.metadata "resource_demand" = true) :
    l.mapM (fun c => metaGetNum c.metadata "resource_demand" 1) =
      .ok (l.map (fun c => numD c.metadata "resource_demand" 1)) := by
  have h1 := mapM_ok_of_forall
    (fun c => metaGetNum c.metadata "resource_demand" 1)
    (fun c => some (numD c.metadata "resource_demand" 1)) l
    (fun c hc => ⟨numD c.metadata "resource_demand" 1,
      metaGetNum_ok_of_numericAt c.metadata "resource_demand" 1 (hl c hc),
      rfl⟩)
  rw [h1]
  have h2 : (fun c : Node => some (numD c.metadata "resource_demand" 1)) =
      some ∘ (fun c : Node => numD c.metadata "resource_demand" 1) := rfl
  rw [h2, List.filterMap_eq_map]

theorem mem_dictVals_of_mem_consumersPure {g : RealityGraph}
    {nodeId : String} {c : Node} (h : c ∈ consumersPure g nodeId) :
    c ∈ dictVals g.nodes := by
  unfold consumersPure at h
  rcases List.mem_filterMap.mp h with ⟨e, _, hget⟩
  exact mem_dictVals_of_get hget

theorem numericAt_demand_of_val_mem {g : RealityGraph} (mok : MetaOK g)
    {c : Node} (h : c ∈ dictVals g.nodes) :
    numericAt c.metadata "resource_demand" = true := by
  rcases exists_key_of_mem_dictVals h with ⟨k, hk⟩
  exact mok.nodeDemand (k, c) hk

theorem numericAt_capacity_of_val_mem {g : RealityGraph} (mok : MetaOK g)
    {c : Node} (h : c ∈ dictVals g.nodes) :
    numericAt c.metadata "capacity" = true := by
  rcases exists_key_of_mem_dictVals h with ⟨k, hk⟩
  exact mok.nodeCapacity (k, c) hk

/-- The resource-oversubscription detector, characterized per Resource
node by the pure rule resourceContraPure on well-formed, well-typed
graphs. -/
theorem resourceContra_char (g : RealityGraph) (inv : Invariant g)
    (mok : MetaOK g) :
    findResourceContradictions g =
      .ok ((getNodesByType g .resource).filterMap (resourceContraPure g)) := by
  unfold findResourceContradictions
  apply foldlM_ok_append
  intro acc r hr
  have hrval : r ∈ dictVals g.nodes := (List.mem_filter.mp hr).1
  have hreq : ∀ e ∈ List.filter (fun e => e.type == EdgeType.requires)
      (List.filterMap (fun eid => dictGet g.edges eid)
        (dictGetD g.radj r.id [])), ∃ k, (k, e) ∈ g.edges := by
    intro e he
    exact mem_bucket_filterMap_edges (List.mem_filter.mp he).1
  have h1 := getIncomingEdges_ok g inv r.id
  have h2 := sources_mapM_ok g inv
    (List.filter (fun e => e.type == EdgeType.requires)
      (List.filterMap (fun eid => dictGet g.edges eid)
        (dictGetD g.radj r.id []))) hreq
  have hcons : List.filterMap (fun e => dictGet g.nodes e.source)
      (List.filter (fun e => e.type == EdgeType.requires)
        (List.filterMap (fun eid => dictGet g.edges eid)
          (dictGetD g.radj r.id []))) = consumersPure g r.id := rfl
  rw [hcons] at h2
  simp only [h1, exBind_ok, h2]
  unfold resourceContraPure
  cases hcp : consumersPure g r.id with
  | nil =>
    show Except.ok acc = Except.ok (acc ++ [])
    rw [List.append_nil]
  | cons c0 t =>
    cases t with
    | nil =>
      show Except.ok acc = Except.ok (acc ++ [])
      rw [List.append_nil]
    | cons c1 rest =>
      have hdem : ∀ c ∈ c0 :: c1 :: rest,
          numericAt c.metadata "resource_demand" = true := by
        intro c hc
        have hcm : c ∈ consumersPure g r.id := by rw [hcp]; exact hc
        exact numericAt_demand_of_val_mem mok
          (mem_dictVals_of_mem_consumersPure hcm)
      simp only [demands_mapM_ok _ hdem, exBind_ok,
        metaGetNum_ok_of_numericAt r.metadata "capacity" 1
          (numericAt_capacity_of_val_mem mok hrval)]
      by_cases hlt : numD r.metadata "capacity" 1 <
          ((c0 :: c1 :: rest).map
            (fun c => numD c.metadata "resource_demand" 1)).sum
      · simp only [if_pos hlt]
        rfl
      · simp only [if_neg hlt]
        show Except.ok acc = Except.ok (acc ++ [])
        rw [List.append_nil]

/-- C3 (amended): on every well-formed graph with well-typed numeric
metadata, the resource-oversubscription detector returns, per Resource
node, exactly the pure per-resource rule resourceContraPure: it emits
one contradiction between the first two consumers at severity 0.85
exactly when there are at least two consumers over incoming Requires
edges and the summed resource_demand (default 1) exceeds the capacity,
which DEFAULTS TO 1 (not unbounded) when the capacity metadata entry
is absent. -/
theorem c3_theorem (g : RealityGraph) (inv : Invariant g) (mok : MetaOK g) :
    findResourceContradictions g =
      .ok ((getNodesByType g .resource).filterMap (resourceContraPure g)) :=
  resourceContra_char g inv mok

theorem c3_witness :
    findResourceContradictions c3Graph =
      .ok ((getNodesByType c3Graph .resource).filterMap
            (resourceContraPure c3Graph)) :=
  c3_theorem c3Graph (by decide) (by decide)

/-! Claim C4: the FIC resource-exhaustion trigger. The claim is wrong
that the trigger is the same as detector 2 of the Reality Graph: the
FIC fires with at least ONE Requires consumer (detector 2 needs two)
and its capacity default is unbounded (detector 2 defaults to 1). The
certainty formula and the capacity-0 special case are as claimed. -/

def c4Graph : RealityGraph :=
  { nodes :=
      [("R", ⟨"R", .resource, "R", "", [("capacity", .num 5)], 1 / 2⟩),
       ("D1", ⟨"D1", .decision, "D1", "",
               [("resource_demand", .num 8)], 1 / 2⟩)]
    edges := [("e1", ⟨"e1", "D1", "R", .requires, 1, 1, []⟩)]
    adj := [("R", []), ("D1", ["e1"])]
    radj := [("R", ["e1"]), ("D1", [])] }

section
attribute [local semireducible] Rat.mul Rat.inv Rat.add Rat.sub

/-- C4 counterexample: with a single consumer (demand 8 > capacity 5)
the FIC emits a resource-exhaustion path with certainty
min(1, 8/5 - 1) = 0.6 while detector 2 of the Reality Graph emits
nothing, so the two trigger conditions are NOT the same. -/
theorem c4_counterexample :
    findResourceExhaustionPaths c4Graph =
      .ok [{ pathType := .resourceExhaustion
             nodes := ["D1", "R"]
             certainty := 3 / 5
             explanation := .resourceExhausted "R" 8 (some 5) }] ∧
    findResourceContradictions c4Graph = .ok [] := by
  exact ⟨by decide, by decide⟩

end

theorem metaNum_ok_of_numericAt_some {m : Dict MetaVal} {k : String}
    {v : MetaVal} (h : numericAt m k = true) (hv : dictGet m k = some v) :
    metaNum v = .ok (valNumD v) := by
  unfold numericAt at h
  rw [hv] at h
  cases v with
  | num q => rfl
  | boolean b => rfl
  | str s => exact Bool.noConfusion h

/-- The per-edge demand reads of the FIC succeed on a well-formed,
well-typed graph and compute the pure per-edge demand. -/
theorem edgeDemands_mapM_ok (g : RealityGraph) (inv : Invariant g)
    (mok : MetaOK g) (l : List Edge)
    (hl : ∀ e ∈ l, ∃ k, (k, e) ∈ g.edges) :
    l.mapM (fun e => do
        let n ← reqNode g e.source
        metaGetNum n.metadata "resource_demand" 1) =
      .ok (l.map (fun e =>
        ((dictGet g.nodes e.source).map
          (fun n => numD n.metadata "resource_demand" 1)).getD 1)) := by
  have h1 := mapM_ok_of_forall
    (fun e : Edge => do
      let n ← reqNode g e.source
      metaGetNum n.metadata "resource_demand" 1)
    (fun e : Edge => some (((dictGet g.nodes e.source).map
      (fun n => numD n.metadata "resource_demand" 1)).getD 1)) l ?_
  · rw [h1]
    have h2 : (fun e : Edge => some (((dictGet g.nodes e.source).map
        (fun n => numD n.metadata "resource_demand" 1)).getD 1)) =
        some ∘ (fun e : Edge => ((dictGet g.nodes e.source).map
          (fun n => numD n.metadata "resource_demand" 1)).getD 1) := rfl
    rw [h2, List.filterMap_eq_map]
  · intro e he
    rcases hl e he with ⟨k, hk⟩
    have hc := inv.srcMem (k, e) hk
    have hs := dictGet_isSome_of_contains hc
    cases hget : dictGet g.nodes e.source with
    | none => rw [hget] at hs; exact Bool.noConfusion hs
    | some n =>
      refine ⟨numD n.metadata "resource_demand" 1, ?_, by simp [hget]⟩
      have hrn : reqNode g e.source = .ok n := by
        unfold reqNode getNode
        rw [hget]
      show (do
        let n ← reqNode g e.source
        metaGetNum n.metadata "resource_demand" 1) =
          Except.ok (numD n.metadata "resource_demand" 1)
      rw [hrn, exBind_ok]
      exact metaGetNum_ok_of_numericAt n.metadata "resource_demand" 1
        (numericAt_demand_of_val_mem mok (mem_dictVals_of_get hget))

/-- The FIC resource-exhaustion discovery, characterized per Resource
node by the pure rule resourceExhaustPure on well-formed, well-typed
graphs. -/
theorem resourceExhaust_char (g : RealityGraph) (inv : Invariant g)
    (mok : MetaOK g) :
    findResourceExhaustionPaths g =
      .ok ((getNodesByType g .resource).filterMap (resourceExhaustPure g)) := by
  unfold findResourceExhaustionPaths
  apply foldlM_ok_append
  intro acc r hr
  have hrval : r ∈ dictVals g.nodes := (List.mem_filter.mp hr).1
  have hreq : ∀ e ∈ List.filter (fun e => e.type == EdgeType.requires)
      (List.filterMap (fun eid => dictGet g.edges eid)
        (dictGetD g.radj r.id [])), ∃ k, (k, e) ∈ g.edges := by
    intro e he
    exact mem_bucket_filterMap_edges (List.mem_filter.mp he).1
  have h1 := getIncomingEdges_ok g inv r.id
  have h2 := edgeDemands_mapM_ok g inv mok
    (List.filter (fun e => e.type == EdgeType.requires)
      (List.filterMap (fun eid => dictGet g.edges eid)
        (dictGetD g.radj r.id []))) hreq
  have hre : List.filter (fun e => e.type == EdgeType.requires)
      (List.filterMap (fun eid => dictGet g.edges eid)
        (dictGetD g.radj r.id [])) = requiresEdgesPure g r.id := rfl
  rw [hre] at h2
  simp only [h1, exBind_ok, hre, h2]
  unfold resourceExhaustPure
  cases hempt : requiresEdgesPure g r.id with
  | nil =>
    simp only [List.length_nil, List.isEmpty_nil]
    show Except.ok acc = Except.ok (acc ++ [])
    rw [List.append_nil]
  | cons e0 t =>
    rw [if_pos (show (e0 :: t).length > 0 by simp)]
    rw [if_neg (show ¬((e0 :: t).isEmpty = true) by simp)]
    cases hcap : dictGet r.metadata "capacity" with
    | none =>
      dsimp only
      show Except.ok acc = Except.ok (acc ++ [])
      rw [List.append_nil]
    | some v =>
      dsimp only
      rw [metaNum_ok_of_numericAt_some
        (numericAt_capacity_of_val_mem mok hrval) hcap, exBind_ok]
      by_cases hlt : valNumD v <
          ((e0 :: t).map (fun e =>
            ((dictGet g.nodes e.source).map
              (fun n => numD n.metadata "resource_demand" 1)).getD 1)).sum
      · simp only [if_pos hlt]
        rfl
      · simp only [if_neg hlt]
        show Except.ok acc = Except.ok (acc ++ [])
        rw [List.append_nil]

/-- C4 (amended): on every well-formed graph with well-typed numeric
metadata, the FIC's resource-exhaustion discovery equals, per Resource
node, the pure rule resourceExhaustPure: it fires with at least ONE
Requires consumer when the summed demand exceeds the capacity, whose
absent-entry default is unbounded (never triggering) rather than
detector 2's default of 1; the certainty is min(1, demand/capacity - 1)
for positive capacity and exactly 1 when the capacity is 0 (or
negative), the division being guarded so no division error is ever
raised. -/
theorem c4_theorem (g : RealityGraph) (inv : Invariant g) (mok : MetaOK g) :
    findResourceExhaustionPaths g =
      .ok ((getNodesByType g .resource).filterMap (resourceExhaustPure g)) :=
  resourceExhaust_char g inv mok

def c4zGraph : RealityGraph :=
  { nodes :=
      [("Z", ⟨"Z", .resource, "Z", "", [("capacity", .num 0)], 1 / 2⟩),
       ("D1", ⟨"D1", .decision, "D1", "",
               [("resource_demand", .num 1)], 1 / 2⟩)]
    edges := [("e1", ⟨"e1", "D1", "Z", .requires, 1, 1, []⟩)]
    adj := [("Z", []), ("D1", ["e1"])]
    radj := [("Z", ["e1"]), ("D1", [])] }

section
attribute [local semireducible] Rat.mul Rat.inv Rat.add Rat.sub

theorem c4_witness :
    findResourceExhaustionPaths c4zGraph =
      .ok ((getNodesByType c4zGraph .resource).filterMap
            (resourceExhaustPure c4zGraph)) ∧
    findResourceExhaustionPaths c4zGraph =
      .ok [{ pathType := .resourceExhaustion
             nodes := ["D1", "Z"]
             certainty := 1
             explanation := .resourceExhausted "Z" 1 (some 0) }] :=
  ⟨c4_theorem c4zGraph (by decide) (by decide), by decide⟩

end

/-! Claim C5: the explicit-contradiction end-to-end scenario. -/

def c5Graph : RealityGraph :=
  { nodes :=
      [("D1", ⟨"D1", .decision, "D1", "", [], 1 / 2⟩),
       ("D2", ⟨"D2", .decision, "D2", "", [], 1 / 2⟩)]
    edges :=
      [("ec", ⟨"ec", "D1", "D2", .contradicts, 1, 1,
               [("severity", .num (19 / 20))]⟩)]
    adj := [("D1", ["ec"]), ("D2", [])]
    radj := [("D1", []), ("D2", ["ec"])] }

def c5Violation : AxiomViolation :=
  { axiomName := "CONTRADICTION_LAW"
    violationType := .contradiction
    severity := 19 / 20
    causalChain := ["D1", "contradicts", "D2"]
    explanation := .explicitReason none }

section
attribute [local semireducible] Rat.mul Rat.inv Rat.add Rat.sub

/-- C5: an explicit Contradicts edge between D1 and D2 with metadata
severity 0.95 makes the ContradictionLaw axiom fire with severity
exactly 0.95; the boundary value 0.95 is fatal (is_fatal is
severity >= 0.95); the full pipeline FII is 0.95 OR 0.95 = 0.9975, and
the Existence Judge returns NotPermissible with certainty 1.0 and a
primary reason citing CONTRADICTION_LAW. -/
theorem c5_theorem :
    verifyAll c5Graph emptyCtx = .ok [c5Violation] ∧
    c5Violation.severity = 19 / 20 ∧
    isFatal c5Violation = true ∧
    compute c5Graph [c5Violation] = .ok (399 / 400) ∧
    renderVerdict c5Graph [c5Violation] (399 / 400) [] =
      .ok (verdictFatalAxiom c5Graph [c5Violation] (399 / 400) []
            c5Violation) ∧
    (verdictFatalAxiom c5Graph [c5Violation] (399 / 400) []
      c5Violation).verdict = .notPermissible ∧
    (verdictFatalAxiom c5Graph [c5Violation] (399 / 400) []
      c5Violation).certainty = 1 ∧
    (verdictFatalAxiom c5Graph [c5Violation] (399 / 400) []
      c5Violation).primaryReason = .fatalWith "CONTRADICTION_LAW" := by
  refine ⟨by decide, by decide, by decide, by decide, by decide, rfl, rfl,
    rfl⟩

end

/-! Claim C6: totality of the three calculators. As stated the claim is
wrong: the structural invariants of the data model allow string-valued
metadata, and a string stored under a numerically-read key (capacity,
resource_demand, severity) makes Python's number-vs-string comparison
raise TypeError inside find_contradictions and the FIC, crashing both
the Axiom Registry (through ContradictionLaw) and FIICalculator.compute
on a structurally well-formed graph. The judge itself reads no
metadata numerically and is total under the structural invariants
alone. With the added assumption that numerically-read metadata fields
hold numbers or bools (MetaOK), all three calculators are total. -/

def c6Graph : RealityGraph :=
  { nodes :=
      [("R", ⟨"R", .resource, "R", "", [("capacity", .str "much")], 1 / 2⟩),
       ("D1", ⟨"D1", .decision, "D1", "", [], 1 / 2⟩),
       ("D2", ⟨"D2", .decision, "D2", "", [], 1 / 2⟩)]
    edges :=
      [("e1", ⟨"e1", "D1", "R", .requires, 1, 1, []⟩),
       ("e2", ⟨"e2", "D2", "R", .requires, 1, 1, []⟩)]
    adj := [("R", []), ("D1", ["e1"]), ("D2", ["e2"])]
    radj := [("R", ["e1", "e2"]), ("D1", []), ("D2", [])] }

section
attribute [local semireducible] Rat.mul Rat.inv Rat.add Rat.sub

/-- C6 counterexample: a graph satisfying every structural invariant of
the data model (endpoints present, adjacency lock-step) on which
verify_all and compute nevertheless raise TypeError, because the
Resource node's capacity metadata holds a string and the
oversubscription comparison is reached. -/
theorem c6_counterexample :
    Invariant c6Graph ∧
    verifyAll c6Graph emptyCtx = .error "TypeError" ∧
    compute c6Graph [] = .error "TypeError" :=
  ⟨by decide, by decide, by decide⟩

end

/-! Machinery for the counterfactual-clone claim. -/

theorem mem_listAdd {l : List String} {x y : String} :
    y ∈ listAdd l x ↔ y ∈ l ∨ y = x := by
  unfold listAdd
  by_cases h : x ∈ l
  · rw [if_pos h]
    constructor
    · exact Or.inl
    · rintro (hy | rfl)
      · exact hy
      · exact h
  · rw [if_neg h]
    simp

theorem listAdd_nodup {l : List String} {x : String} (h : l.Nodup) :
    (listAdd l x).Nodup := by
  unfold listAdd
  by_cases hm : x ∈ l
  · rw [if_pos hm]; exact h
  · rw [if_neg hm]
    rw [List.nodup_append]
    exact ⟨h, List.nodup_singleton x, by
      intro a ha hax
      have : a = x := by simpa using hax
      exact hm (this ▸ ha)⟩

theorem dictGet_of_mem_nodup {α : Type} {d : Dict α} {k : String} {v : α}
    (hn : (dictKeys d).Nodup) (h : (k, v) ∈ d) : dictGet d k = some v := by
  induction d with
  | nil => exact absurd h (List.not_mem_nil _)
  | cons p t ih =>
    rw [dictGet_cons]
    rcases List.mem_cons.mp h with rfl | hm
    · simp
    · have hn' : (p.1 :: dictKeys t).Nodup := hn
      have hnotin := (List.nodup_cons.mp hn').1
      have hnt := (List.nodup_cons.mp hn').2
      have hk : k ∈ dictKeys t := List.mem_map.mpr ⟨(k, v), hm, rfl⟩
      have hp : p.1 ≠ k := fun he => hnotin (he ▸ hk)
      rw [if_neg (by simpa using hp)]
      exact ih hnt hm

theorem dictErase_of_not_contains {α : Type} {d : Dict α} {k : String}
    (h : dictContains d k = false) : dictErase d k = d := by
  unfold dictErase
  apply List.filter_eq_self.mpr
  intro p hp
  have hne : p.1 ≠ k := by
    intro he
    have hc : dictContains d k = true :=
      List.any_eq_true.mpr ⟨p, hp, by simp [he]⟩
    rw [h] at hc
    exact Bool.noConfusion hc
  simpa using hne

/-- The invariant carried through the clone's edge-restoring fold. -/
structure CloneInv (g : RealityGraph) (processed : Dict Edge)
    (acc : RealityGraph) : Prop where
  nodesEq : acc.nodes = g.nodes
  edgesEq : acc.edges = processed
  adjKeys : dictKeys acc.adj = dictKeys g.nodes
  radjKeys : dictKeys acc.radj = dictKeys g.nodes
  adjSound : ∀ p ∈ acc.adj, ∀ eid ∈ (p : String × List String).2,
    ∃ e, (eid, e) ∈ processed ∧ e.source = p.1
  radjSound : ∀ p ∈ acc.radj, ∀ eid ∈ (p : String × List String).2,
    ∃ e, (eid, e) ∈ processed ∧ e.target = p.1
  adjCov : ∀ q ∈ processed,
    (q : String × Edge).1 ∈ dictGetD acc.adj q.2.source []
  radjCov : ∀ q ∈ processed,
    (q : String × Edge).1 ∈ dictGetD acc.radj q.2.target []
  adjNodup : ∀ p ∈ acc.adj, ((p : String × List String).2).Nodup
  radjNodup : ∀ p ∈ acc.radj, ((p : String × List String).2).Nodup

theorem clone_fold_ok (g : RealityGraph) (inv : Invariant g) :
    ∀ (l processed : Dict Edge), g.edges = processed ++ l →
    ∀ acc, CloneInv g processed acc →
    ∃ c, l.foldlM
        (fun acc p => do
          let e := p.2
          if dictContains acc.adj e.source &&
             dictContains acc.radj e.target then
            pure { acc with
                   edges := acc.edges ++ [(e.id, e)]
                   adj := dictInsert acc.adj e.source
                     (listAdd (dictGetD acc.adj e.source []) e.id)
                   radj := dictInsert acc.radj e.target
                     (listAdd (dictGetD acc.radj e.target []) e.id) }
          else
            (.error "KeyError" : Except String RealityGraph)) acc = .ok c ∧
      CloneInv g (processed ++ l) c
  | [], processed, hsplit, acc, hinv => by
    refine ⟨acc, rfl, ?_⟩
    rw [List.append_nil]
    exact hinv
  | q :: t, processed, hsplit, acc, hinv => by
    have hqmem : q ∈ g.edges := by
      rw [hsplit]
      exact List.mem_append.mpr (Or.inr (List.mem_cons_self q t))
    have hsrc : dictContains acc.adj q.2.source = true := by
      rw [dictContains_congr_keys hinv.adjKeys]
      exact inv.srcMem q hqmem
    have htgt : dictContains acc.radj q.2.target = true := by
      rw [dictContains_congr_keys hinv.radjKeys]
      exact inv.tgtMem q hqmem
    have hkey : q.2.id = q.1 := inv.edgeKeyEq q hqmem
    rw [List.foldlM_cons]
    simp only [hsrc, htgt, Bool.and_self, if_true, exBind_ok]
    have hsplit2 : g.edges = (processed ++ [q]) ++ t := by
      rw [hsplit, List.append_assoc]
      rfl
    set acc2 : RealityGraph :=
      { acc with
        edges := acc.edges ++ [(q.2.id, q.2)]
        adj := dictInsert acc.adj q.2.source
          (listAdd (dictGetD acc.adj q.2.source []) q.2.id)
        radj := dictInsert acc.radj q.2.target
          (listAdd (dictGetD acc.radj q.2.target []) q.2.id) } with hacc2
    have hinv2 : CloneInv g (processed ++ [q]) acc2 := by
      have hbadj : dictGet acc2.adj q.2.source =
          some (listAdd (dictGetD acc.adj q.2.source []) q.2.id) :=
        dictGet_dictInsert_self _ _ _
      have hbradj : dictGet acc2.radj q.2.target =
          some (listAdd (dictGetD acc.radj q.2.target []) q.2.id) :=
        dictGet_dictInsert_self _ _ _
      refine ⟨hinv.nodesEq, ?_, ?_, ?_, ?_, ?_, ?_, ?_, ?_, ?_⟩
      · rw [hacc2]
        show acc.edges ++ [(q.2.id, q.2)] = processed ++ [q]
        rw [hinv.edgesEq, hkey]
      · rw [hacc2]
        show dictKeys (dictInsert acc.adj q.2.source _) = dictKeys g.nodes
        rw [dictKeys_dictInsert_of_contains _ hsrc, hinv.adjKeys]
      · rw [hacc2]
        show dictKeys (dictInsert acc.radj q.2.target _) = dictKeys g.nodes
        rw [dictKeys_dictInsert_of_contains _ htgt, hinv.radjKeys]
      · intro p hp eid he
        rcases mem_dictInsert_replace hsrc hp with hold | ⟨hp1, hp2⟩
        · rcases hinv.adjSound p hold eid he with ⟨e, hem, hes⟩
          exact ⟨e, List.mem_append.mpr (Or.inl hem), hes⟩
        · rw [hp2] at he
          rcases mem_listAdd.mp he with hb | rfl
          · have hpair : (q.2.source, dictGetD acc.adj q.2.source []) ∈
                acc.adj := by
              rcases dictGetD_cases acc.adj q.2.source [] with hnone | hmem
              · rw [hnone] at hb; exact absurd hb (List.not_mem_nil _)
              · exact hmem
            rcases hinv.adjSound _ hpair eid hb with ⟨e, hem, hes⟩
            exact ⟨e, List.mem_append.mpr (Or.inl hem), by rw [hes, hp1]⟩
          · refine ⟨q.2, ?_, hp1.symm⟩
            rw [hkey]
            exact List.mem_append.mpr (Or.inr (List.mem_singleton.mpr rfl))
      · intro p hp eid he
        rcases mem_dictInsert_replace htgt hp with hold | ⟨hp1, hp2⟩
        · rcases hinv.radjSound p hold eid he with ⟨e, hem, hes⟩
          exact ⟨e, List.mem_append.mpr (Or.inl hem), hes⟩
        · rw [hp2] at he
          rcases mem_listAdd.mp he with hb | rfl
          · have hpair : (q.2.target, dictGetD acc.radj q.2.target []) ∈
                acc.radj := by
              rcases dictGetD_cases acc.radj q.2.target [] with hnone | hmem
              · rw [hnone] at hb; exact absurd hb (List.not_mem_nil _)
              · exact hmem
            rcases hinv.radjSound _ hpair eid hb with ⟨e, hem, hes⟩
            exact ⟨e, List.mem_append.mpr (Or.inl hem), by rw [hes, hp1]⟩
          · refine ⟨q.2, ?_, hp1.symm⟩
            rw [hkey]
            exact List.mem_append.mpr (Or.inr (List.mem_singleton.mpr rfl))
      · intro p hp
        rcases List.mem_append.mp hp with hold | hnew
        · by_cases hps : p.2.source = q.2.source
          · unfold dictGetD
            rw [hacc2]
            show p.1 ∈ (dictGet (dictInsert acc.adj q.2.source _)
              p.2.source).getD []
            rw [hps, hbadj]
            show p.1 ∈ listAdd (dictGetD acc.adj q.2.source []) q.2.id
            apply mem_listAdd.mpr
            left
            have := hinv.adjCov p hold
            rwa [hps] at this
          · unfold dictGetD
            rw [hacc2]
            show p.1 ∈ (dictGet (dictInsert acc.adj q.2.source _)
              p.2.source).getD []
            rw [dictGet_dictInsert_ne _ _ _ _ hps]
            exact hinv.adjCov p hold
        · have hpq : p = q := by simpa using hnew
          rw [hpq]
          unfold dictGetD
          rw [hacc2]
          show q.1 ∈ (dictGet (dictInsert acc.adj q.2.source _)
            q.2.source).getD []
          rw [hbadj]
          show q.1 ∈ listAdd (dictGetD acc.adj q.2.source []) q.2.id
          rw [← hkey]
          exact mem_listAdd.mpr (Or.inr rfl)
      · intro p hp
        rcases List.mem_append.mp hp with hold | hnew
        · by_cases hps : p.2.target = q.2.target
          · unfold dictGetD
            rw [hacc2]
            show p.1 ∈ (dictGet (dictInsert acc.radj q.2.target _)
              p.2.target).getD []
            rw [hps, hbradj]
            show p.1 ∈ listAdd (dictGetD acc.radj q.2.target []) q.2.id
            apply mem_listAdd.mpr
            left
            have := hinv.radjCov p hold
            rwa [hps] at this
          · unfold dictGetD
            rw [hacc2]
            show p.1 ∈ (dictGet (dictInsert acc.radj q.2.target _)
              p.2.target).getD []
            rw [dictGet_dictInsert_ne _ _ _ _ hps]
            exact hinv.radjCov p hold
        · have hpq : p = q := by simpa using hnew
          rw [hpq]
          unfold dictGetD
          rw [hacc2]
          show q.1 ∈ (dictGet (dictInsert acc.radj q.2.target _)
            q.2.target).getD []
          rw [hbradj]
          show q.1 ∈ listAdd (dictGetD acc.radj q.2.target []) q.2.id
          rw [← hkey]
          exact mem_listAdd.mpr (Or.inr rfl)
      · intro p hp
        rcases mem_dictInsert_replace hsrc hp with hold | ⟨_, hp2⟩
        · exact hinv.adjNodup p hold
        · rw [hp2]
          apply listAdd_nodup
          rcases dictGetD_cases acc.adj q.2.source [] with hnone | hmem
          · rw [hnone]; exact List.nodup_nil
          · exact hinv.adjNodup _ hmem
      · intro p hp
        rcases mem_dictInsert_replace htgt hp with hold | ⟨_, hp2⟩
        · exact hinv.radjNodup p hold
        · rw [hp2]
          apply listAdd_nodup
          rcases dictGetD_cases acc.radj q.2.target [] with hnone | hmem
          · rw [hnone]; exact List.nodup_nil
          · exact hinv.radjNodup _ hmem
    rcases clone_fold_ok g inv t (processed ++ [q]) hsplit2 acc2 hinv2 with
      ⟨c, hc, hcinv⟩
    refine ⟨c, hc, ?_⟩
    rwa [List.append_assoc] at hcinv

theorem cloneGraph_ok (g : RealityGraph) (inv : Invariant g) :
    ∃ c, cloneGraph g = .ok c ∧ CloneInv g g.edges c := by
  have hg0 : CloneInv g []
      { nodes := g.nodes.map (fun p => (p.2.id, p.2))
        edges := []
        adj := g.nodes.map (fun p => (p.2.id, []))
        radj := g.nodes.map (fun p => (p.2.id, [])) } := by
    have hnodes : g.nodes.map (fun p => (p.2.id, p.2)) = g.nodes := by
      have h1 : g.nodes.map (fun p => (p.2.id, p.2)) =
          g.nodes.map (fun p => p) := by
        apply List.map_congr_left
        intro p hp
        rw [inv.nodeKeyEq p hp]
      rw [h1, List.map_id_fun']
      rfl
    have hkeys : dictKeys (g.nodes.map (fun p => ((p.2.id : String),
        ([] : List String)))) = dictKeys g.nodes := by
      unfold dictKeys
      rw [List.map_map]
      apply List.map_congr_left
      intro p hp
      exact inv.nodeKeyEq p hp
    refine ⟨hnodes, rfl, hkeys, hkeys, ?_, ?_, ?_, ?_, ?_, ?_⟩
    · intro p hp eid he
      rcases List.mem_map.mp hp with ⟨q, _, hq⟩
      rw [← hq] at he
      exact absurd he (List.not_mem_nil eid)
    · intro p hp eid he
      rcases List.mem_map.mp hp with ⟨q, _, hq⟩
      rw [← hq] at he
      exact absurd he (List.not_mem_nil eid)
    · intro q hq
      exact absurd hq (List.not_mem_nil q)
    · intro q hq
      exact absurd hq (List.not_mem_nil q)
    · intro p hp
      rcases List.mem_map.mp hp with ⟨q, _, hq⟩
      rw [← hq]
      exact List.nodup_nil
    · intro p hp
      rcases List.mem_map.mp hp with ⟨q, _, hq⟩
      rw [← hq]
      exact List.nodup_nil
  rcases clone_fold_ok g inv g.edges [] rfl _ hg0 with ⟨c, hc, hcinv⟩
  exact ⟨c, hc, hcinv⟩

/-- In a graph whose adjacency is sound and covering for its edge dict,
bucket membership is equivalent to "there is an edge with this id whose
source is the bucket's key"; this holds for the original graph (from
Invariant) and for the clone (from CloneInv). -/
theorem bucket_mem_iff_adj (g : RealityGraph) (inv : Invariant g)
    (id eid : String) :
    eid ∈ dictGetD g.adj id [] ↔
      ∃ e, (eid, e) ∈ g.edges ∧ e.source = id := by
  constructor
  · intro h
    have hpair : (id, dictGetD g.adj id []) ∈ g.adj := by
      rcases dictGetD_cases g.adj id [] with hnone | hmem
      · rw [hnone] at h; exact absurd h (List.not_mem_nil eid)
      · exact hmem
    have := inv.adjBucketsOk _ hpair eid h
    cases hget : dictGet g.edges eid with
    | none => rw [hget] at this; exact Option.noConfusion this
    | some e =>
      rw [hget] at this
      refine ⟨e, dictGet_eq_some_mem hget, ?_⟩
      simpa using this
  · rintro ⟨e, hmem, hsrc⟩
    have := inv.adjCover (eid, e) hmem
    rwa [hsrc] at this

theorem bucket_mem_iff_radj (g : RealityGraph) (inv : Invariant g)
    (id eid : String) :
    eid ∈ dictGetD g.radj id [] ↔
      ∃ e, (eid, e) ∈ g.edges ∧ e.target = id := by
  constructor
  · intro h
    have hpair : (id, dictGetD g.radj id []) ∈ g.radj := by
      rcases dictGetD_cases g.radj id [] with hnone | hmem
      · rw [hnone] at h; exact absurd h (List.not_mem_nil eid)
      · exact hmem
    have := inv.radjBucketsOk _ hpair eid h
    cases hget : dictGet g.edges eid with
    | none => rw [hget] at this; exact Option.noConfusion this
    | some e =>
      rw [hget] at this
      refine ⟨e, dictGet_eq_some_mem hget, ?_⟩
      simpa using this
  · rintro ⟨e, hmem, htgt⟩
    have := inv.radjCover (eid, e) hmem
    rwa [htgt] at this

theorem cloneBucket_mem_iff_adj (g c : RealityGraph)
    (hcinv : CloneInv g g.edges c) (id eid : String) :
    eid ∈ dictGetD c.adj id [] ↔
      ∃ e, (eid, e) ∈ g.edges ∧ e.source = id := by
  constructor
  · intro h
    have hpair : (id, dictGetD c.adj id []) ∈ c.adj := by
      rcases dictGetD_cases c.adj id [] with hnone | hmem
      · rw [hnone] at h; exact absurd h (List.not_mem_nil eid)
      · exact hmem
    exact hcinv.adjSound _ hpair eid h
  · rintro ⟨e, hmem, hsrc⟩
    have := hcinv.adjCov (eid, e) hmem
    rwa [hsrc] at this

theorem cloneBucket_mem_iff_radj (g c : RealityGraph)
    (hcinv : CloneInv g g.edges c) (id eid : String) :
    eid ∈ dictGetD c.radj id [] ↔
      ∃ e, (eid, e) ∈ g.edges ∧ e.target = id := by
  constructor
  · intro h
    have hpair : (id, dictGetD c.radj id []) ∈ c.radj := by
      rcases dictGetD_cases c.radj id [] with hnone | hmem
      · rw [hnone] at h; exact absurd h (List.not_mem_nil eid)
      · exact hmem
    exact hcinv.radjSound _ hpair eid h
  · rintro ⟨e, hmem, htgt⟩
    have := hcinv.radjCov (eid, e) hmem
    rwa [htgt] at this

/-- The edge-cleanup fold of _modify_node_failure: its effect on the edge
dict is successive erasure, and it never touches the node dict. -/
theorem cleanup_fold_effect : ∀ (ids : List String) (acc : RealityGraph),
    ((ids.foldl
      (fun acc eid =>
        match dictGet acc.edges eid with
        | none => acc
        | some e =>
          { acc with
            edges := dictErase acc.edges eid
            adj :=
              if dictContains acc.adj e.source then
                dictInsert acc.adj e.source
                  (listRemove (dictGetD acc.adj e.source []) eid)
              else acc.adj
            radj :=
              if dictContains acc.radj e.target then
                dictInsert acc.radj e.target
                  (listRemove (dictGetD acc.radj e.target []) eid)
              else acc.radj }) acc).edges =
      ids.foldl (fun d eid => dictErase d eid) acc.edges) ∧
    ((ids.foldl
      (fun acc eid =>
        match dictGet acc.edges eid with
        | none => acc
        | some e =>
          { acc with
            edges := dictErase acc.edges eid
            adj :=
              if dictContains acc.adj e.source then
                dictInsert acc.adj e.source
                  (listRemove (dictGetD acc.adj e.source []) eid)
              else acc.adj
            radj :=
              if dictContains acc.radj e.target then
                dictInsert acc.radj e.target
                  (listRemove (dictGetD acc.radj e.target []) eid)
              else acc.radj }) acc).nodes = acc.nodes)
  | [], acc => ⟨rfl, rfl⟩
  | i :: t, acc => by
    rw [List.foldl_cons, List.foldl_cons]
    have hstepn :
        ∀ (a : RealityGraph) (eid : String),
        ((match dictGet a.edges eid with
          | none => a
          | some e =>
            { a with
              edges := dictErase a.edges eid
              adj :=
                if dictContains a.adj e.source then
                  dictInsert a.adj e.source
                    (listRemove (dictGetD a.adj e.source []) eid)
                else a.adj
              radj :=
                if dictContains a.radj e.target then
                  dictInsert a.radj e.target
                    (listRemove (dictGetD a.radj e.target []) eid)
                else a.radj } : RealityGraph).nodes = a.nodes) ∧
        ((match dictGet a.edges eid with
          | none => a
          | some e =>
            { a with
              edges := dictErase a.edges eid
              adj :=
                if dictContains a.adj e.source then
                  dictInsert a.adj e.source
                    (listRemove (dictGetD a.adj e.source []) eid)
                else a.adj
              radj :=
                if dictContains a.radj e.target then
                  dictInsert a.radj e.target
                    (listRemove (dictGetD a.radj e.target []) eid)
                else a.radj } : RealityGraph).edges = dictErase a.edges eid) := by
      intro a eid
      cases hget : dictGet a.edges eid with
      | none =>
        refine ⟨rfl, ?_⟩
        have hnc : dictContains a.edges eid = false := by
          cases hcc : dictContains a.edges eid with
          | false => rfl
          | true =>
            have := dictGet_isSome_of_contains hcc
            rw [hget] at this
            exact Bool.noConfusion this
        rw [dictErase_of_not_contains hnc]
      | some e => exact ⟨rfl, rfl⟩
    obtain ⟨he, hn⟩ := cleanup_fold_effect t _
    obtain ⟨hsn, hse⟩ := hstepn acc i
    refine ⟨?_, ?_⟩
    · rw [he, hse]
    · rw [hn, hsn]

theorem foldl_dictErase_filter {α : Type} :
    ∀ (ids : List String) (d : Dict α),
    ids.foldl (fun d eid => dictErase d eid) d =
      d.filter (fun p => !(decide (p.1 ∈ ids)))
  | [], d => by
    rw [List.foldl_nil]
    exact (List.filter_eq_self.mpr (fun p _ => rfl)).symm
  | i :: t, d => by
    rw [List.foldl_cons, foldl_dictErase_filter t (dictErase d i)]
    unfold dictErase
    rw [List.filter_filter]
    apply List.filter_congr
    intro p _
    by_cases hpi : p.1 = i <;> by_cases hpt : p.1 ∈ t <;>
      simp [hpi, hpt]

/-- _modify_node_failure removes the node from the node dict and exactly
the incident edges from the edge dict (in both the present and the
absent case, the latter vacuously). -/
theorem modifyNodeFailure_spec (c : RealityGraph)
    (hn : (dictKeys c.edges).Nodup)
    (hsrc : ∀ p ∈ c.edges, dictContains c.nodes (p : String × Edge).2.source = true)
    (htgt : ∀ p ∈ c.edges, dictContains c.nodes (p : String × Edge).2.target = true)
    (nid : String) :
    (modifyNodeFailure nid c).nodes = dictErase c.nodes nid ∧
    (modifyNodeFailure nid c).edges =
      c.edges.filter
        (fun p => !(p.2.source == nid || p.2.target == nid)) := by
  unfold modifyNodeFailure
  by_cases hc : dictContains c.nodes nid
  · rw [if_pos hc]
    obtain ⟨he, hnn⟩ := cleanup_fold_effect
      ((c.edges.filter
        (fun p => p.2.source == nid || p.2.target == nid)).map Prod.fst) c
    refine ⟨?_, ?_⟩
    · dsimp only
      rw [hnn]
    · dsimp only
      rw [he, foldl_dictErase_filter]
      apply List.filter_congr
      intro p hp
      have hiff : (p.1 ∈ (c.edges.filter
          (fun p => p.2.source == nid || p.2.target == nid)).map Prod.fst) ↔
          (p.2.source == nid || p.2.target == nid) = true := by
        constructor
        · intro hm
          rcases List.mem_map.mp hm with ⟨q, hq, hq1⟩
          have hqmem := (List.mem_filter.mp hq).1
          have hqtouch := (List.mem_filter.mp hq).2
          have h1 : dictGet c.edges p.1 = some p.2 :=
            dictGet_of_mem_nodup hn (by
              cases p with
              | mk a b => exact hp)
          have h2 : dictGet c.edges p.1 = some q.2 := by
            rw [← hq1]
            exact dictGet_of_mem_nodup hn (by
              cases q with
              | mk a b => exact hqmem)
          rw [h1] at h2
          have hpq : p.2 = q.2 := Option.some.inj h2
          rwa [hpq]
        · intro ht
          exact List.mem_map.mpr
            ⟨p, List.mem_filter.mpr ⟨hp, ht⟩, rfl⟩
      by_cases htouch : (p.2.source == nid || p.2.target == nid) = true
      · have hm : p.1 ∈ (c.edges.filter
            (fun p => p.2.source == nid || p.2.target == nid)).map Prod.fst :=
          hiff.mpr htouch
        simp [hm, htouch]
      · have hm : p.1 ∉ (c.edges.filter
            (fun p => p.2.source == nid || p.2.target == nid)).map Prod.fst :=
          fun hm => htouch (hiff.mp hm)
        simp [hm, Bool.eq_false_iff.mpr htouch]
  · rw [if_neg hc]
    refine ⟨?_, ?_⟩
    · rw [dictErase_of_not_contains (Bool.eq_false_iff.mpr hc)]
    · symm
      apply List.filter_eq_self.mpr
      intro p hp
      have h1 : p.2.source ≠ nid := by
        intro heq
        have hh := hsrc p hp
        rw [heq] at hh
        rw [hh] at hc
        exact hc rfl
      have h2 : p.2.target ≠ nid := by
        intro heq
        have hh := htgt p hp
        rw [heq] at hh
        rw [hh] at hc
        exact hc rfl
      simp [h1, h2]

/-! Claim C7: counterfactual scenarios run on a structurally deep clone.
In this embedding graphs are immutable values, so applying a mutation
operator to the clone trivially cannot alter the base graph value; the
verifiable content of the claim is that the clone reproduces the base
graph exactly (same node dict, same edge dict, and adjacency buckets
with the same members, rebuilt from scratch) and that the node-failure
mutation changes only its own graph, removing exactly the failed node
and its incident edges. -/

/-- C7: _clone_graph succeeds on every well-formed base graph and
reproduces its nodes, edges and adjacency memberships; applying the
node-failure mutation to the clone yields a graph whose node dict is
the base's minus the failed id and whose edge dict is the base's minus
exactly the incident edges, while the base graph (a value) retains its
node count, edge count, adjacency indices and all metadata. -/
theorem c7_theorem (g : RealityGraph) (inv : Invariant g) (nid : String) :
    ∃ c, cloneGraph g = .ok c ∧
      c.nodes = g.nodes ∧
      c.edges = g.edges ∧
      (∀ id eid, eid ∈ dictGetD c.adj id [] ↔ eid ∈ dictGetD g.adj id []) ∧
      (∀ id eid, eid ∈ dictGetD c.radj id [] ↔ eid ∈ dictGetD g.radj id []) ∧
      (modifyNodeFailure nid c).nodes = dictErase g.nodes nid ∧
      (modifyNodeFailure nid c).edges =
        g.edges.filter
          (fun p => !(p.2.source == nid || p.2.target == nid)) := by
  rcases cloneGraph_ok g inv with ⟨c, hc, hcinv⟩
  have hnodes := hcinv.nodesEq
  have hedges := hcinv.edgesEq
  have hspec := modifyNodeFailure_spec c
    (by rw [hedges]; exact inv.edgesNodup)
    (by rw [hedges, hnodes]; exact inv.srcMem)
    (by rw [hedges, hnodes]; exact inv.tgtMem) nid
  refine ⟨c, hc, hnodes, hedges, ?_, ?_, ?_, ?_⟩
  · intro id eid
    exact (cloneBucket_mem_iff_adj g c hcinv id eid).trans
      (bucket_mem_iff_adj g inv id eid).symm
  · intro id eid
    exact (cloneBucket_mem_iff_radj g c hcinv id eid).trans
      (bucket_mem_iff_radj g inv id eid).symm
  · rw [hspec.1, hnodes]
  · rw [hspec.2, hedges]

def c7Graph : RealityGraph :=
  { nodes :=
      [("A", ⟨"A", .decision, "A", "", [("k", .num 3)], 1 / 2⟩),
       ("B", ⟨"B", .behavior, "B", "", [], 1 / 2⟩)]
    edges := [("e", ⟨"e", "A", "B", .causes, 1, 1, []⟩)]
    adj := [("A", ["e"]), ("B", [])]
    radj := [("A", []), ("B", ["e"])] }

section
attribute [local semireducible] Rat.mul Rat.inv Rat.add Rat.sub

theorem c7_witness :
    cloneGraph c7Graph = .ok c7Graph ∧
    (modifyNodeFailure "B" c7Graph).nodes = dictErase c7Graph.nodes "B" ∧
    (modifyNodeFailure "B" c7Graph).edges =
      c7Graph.edges.filter
        (fun p => !(p.2.source == "B" || p.2.target == "B")) := by
  rcases c7_theorem c7Graph (by decide) "B"
    with ⟨c, hc, hnodes, hedges, _, _, hm1, hm2⟩
  have hcv : cloneGraph c7Graph = .ok c7Graph := by decide
  rw [hcv] at hc
  have hceq : c7Graph = c := Except.ok.inj hc
  rw [← hceq] at hm1 hm2
  exact ⟨hcv, hm1, hm2⟩

end

/-! Totality of the graph traversals (for the amended C6). The potential
of a traversal state is its stack length plus (E+2) times the number of
unvisited node keys; every control step strictly decreases it, so the
travFuel / deadFuel budgets always suffice on well-formed graphs. -/

theorem filter_length_le {α : Type} {p q : α → Bool}
    (h : ∀ a, p a = true → q a = true) :
    ∀ l : List α, (l.filter p).length ≤ (l.filter q).length
  | [] => le_refl 0
  | a :: t => by
    have ih := filter_length_le h t
    rw [List.filter_cons, List.filter_cons]
    cases hpa : p a
    · cases hqa : q a <;> simp <;> omega
    · rw [h a hpa]
      simp
      omega

theorem filter_length_lt {α : Type} {p q : α → Bool}
    (h : ∀ a, p a = true → q a = true) :
    ∀ (l : List α) (x : α), x ∈ l → q x = true → p x = false →
      (l.filter p).length < (l.filter q).length
  | a :: t, x, hx, hqx, hpx => by
    rcases List.mem_cons.mp hx with rfl | hxt
    · have ih := filter_length_le h t
      simp [List.filter_cons, hpx, hqx]
      omega
    · have ih := filter_length_lt h t x hxt hqx hpx
      rw [List.filter_cons, List.filter_cons]
      cases hpa : p a
      · cases hqa : q a <;> simp <;> omega
      · rw [h a hpa]
        simp
        omega

/-- The number of node keys not yet in the visited list. -/
def unvisitedCount (g : RealityGraph) (visited : List String) : ℕ :=
  ((dictKeys g.nodes).filter (fun k => decide (k ∉ visited))).length

theorem unvisitedCount_le (g : RealityGraph) (visited : List String) :
    unvisitedCount g visited ≤ g.nodes.length := by
  unfold unvisitedCount
  have h1 := List.length_filter_le
    (fun k => decide (k ∉ visited)) (dictKeys g.nodes)
  have h2 : (dictKeys g.nodes).length = g.nodes.length := by
    unfold dictKeys
    exact List.length_map _ _
  omega

theorem unvisitedCount_mono (g : RealityGraph) {A B : List String}
    (h : ∀ x, x ∈ A → x ∈ B) :
    unvisitedCount g B ≤ unvisitedCount g A := by
  unfold unvisitedCount
  apply filter_length_le
  intro a ha
  simp only [decide_eq_true_eq] at *
  exact fun hmem => ha (h a hmem)

theorem unvisitedCount_lt (g : RealityGraph) {A B : List String} {x : String}
    (hsub : ∀ y, y ∈ A → y ∈ B) (hxk : x ∈ dictKeys g.nodes)
    (hxA : x ∉ A) (hxB : x ∈ B) :
    unvisitedCount g B < unvisitedCount g A := by
  unfold unvisitedCount
  apply filter_length_lt _ _ x hxk
  · simp [hxA]
  · simp [hxB]
  · intro a ha
    simp only [decide_eq_true_eq] at *
    exact fun hmem => ha (hsub a hmem)

/-- Every reverse-adjacency bucket of a well-formed graph has at most one
entry per edge. -/
theorem radj_bucket_length_le (g : RealityGraph) (inv : Invariant g)
    (nodeId : String) :
    (dictGetD g.radj nodeId []).length ≤ g.edges.length := by
  rcases dictGetD_cases g.radj nodeId [] with hd | hd
  · rw [hd]
    exact Nat.zero_le _
  · have hnd : (dictGetD g.radj nodeId []).Nodup :=
      inv.radjBucketNodup _ hd
    have hsub : dictGetD g.radj nodeId [] ⊆ dictKeys g.edges := by
      intro eid he
      have hok := inv.radjBucketsOk _ hd eid he
      cases hget : dictGet g.edges eid with
      | none => rw [hget] at hok; exact Option.noConfusion hok
      | some e =>
        exact (dictContains_iff_mem_keys _ _).mp
          (contains_of_dictGet_eq_some hget)
    have hlen := (List.subperm_of_subset hnd hsub).length_le
    have h2 : (dictKeys g.edges).length = g.edges.length := by
      unfold dictKeys
      exact List.length_map _ _
    omega

theorem adj_bucket_length_le (g : RealityGraph) (inv : Invariant g)
    (nodeId : String) :
    (dictGetD g.adj nodeId []).length ≤ g.edges.length := by
  rcases dictGetD_cases g.adj nodeId [] with hd | hd
  · rw [hd]
    exact Nat.zero_le _
  · have hnd : (dictGetD g.adj nodeId []).Nodup :=
      inv.adjBucketNodup _ hd
    have hsub : dictGetD g.adj nodeId [] ⊆ dictKeys g.edges := by
      intro eid he
      have hok := inv.adjBucketsOk _ hd eid he
      cases hget : dictGet g.edges eid with
      | none => rw [hget] at hok; exact Option.noConfusion hok
      | some e =>
        exact (dictContains_iff_mem_keys _ _).mp
          (contains_of_dictGet_eq_some hget)
    have hlen := (List.subperm_of_subset hnd hsub).length_le
    have h2 : (dictKeys g.edges).length = g.edges.length := by
      unfold dictKeys
      exact List.length_map _ _
    omega

/-- A stored node's id is a key of the node dict. -/
theorem val_id_contains {g : RealityGraph} (inv : Invariant g) {n : Node}
    (h : n ∈ dictVals g.nodes) : dictContains g.nodes n.id = true := by
  rcases exists_key_of_mem_dictVals h with ⟨k, hk⟩
  have := inv.nodeKeyEq (k, n) hk
  rw [this]
  apply (dictContains_iff_mem_keys _ _).mpr
  exact List.mem_map.mpr ⟨(k, n), hk, rfl⟩

/-- The ancestry loop terminates normally whenever every stacked id is a
node key and the fuel exceeds the potential of the state. -/
theorem ancestryLoop_ok (g : RealityGraph) (inv : Invariant g) :
    ∀ (fuel : ℕ) (visited stack : List String),
    (∀ x ∈ stack, dictContains g.nodes x = true) →
    stack.length + (g.edges.length + 2) * unvisitedCount g visited < fuel →
    ∃ b, ancestryLoop g fuel visited stack = .ok b
  | 0, _, _, _, hfuel => absurd hfuel (by omega)
  | fuel + 1, visited, [], _, _ => ⟨false, rfl⟩
  | fuel + 1, visited, currentId :: rest, hstack, hfuel => by
    simp only [List.length_cons] at hfuel
    simp only [ancestryLoop]
    by_cases hv : currentId ∈ visited
    · rw [if_pos hv]
      exact ancestryLoop_ok g inv fuel visited rest
        (fun x hx => hstack x (List.mem_cons_of_mem _ hx))
        (by omega)
    · rw [if_neg hv]
      have hc := hstack currentId (List.mem_cons_self _ _)
      have hsome := dictGet_isSome_of_contains hc
      cases hget : dictGet g.nodes currentId with
      | none => rw [hget] at hsome; exact absurd hsome (by simp)
      | some current =>
        dsimp only
        cases hdec : current.type == NodeType.decision with
        | true => exact ⟨true, by rw [if_pos rfl]⟩
        | false =>
          rw [if_neg Bool.false_ne_true]
          rw [getIncomingEdges_ok g inv currentId]
          simp only [exBind_ok]
          set incoming := (dictGetD g.radj currentId []).filterMap
            (fun eid => dictGet g.edges eid) with hinc
          apply ancestryLoop_ok g inv fuel (currentId :: visited)
          · intro x hx
            rcases List.mem_append.mp hx with hx1 | hx2
            · rw [List.mem_reverse] at hx1
              rcases List.mem_map.mp hx1 with ⟨e, he, hxe⟩
              rcases mem_bucket_filterMap_edges he with ⟨k, hk⟩
              rw [← hxe]
              exact inv.srcMem (k, e) hk
            · exact hstack x (List.mem_cons_of_mem _ hx2)
          · have hlen1 : incoming.length ≤ (dictGetD g.radj currentId []).length :=
              List.length_filterMap_le _ _
            have hlen2 := radj_bucket_length_le g inv currentId
            have hu : unvisitedCount g (currentId :: visited) <
                unvisitedCount g visited := by
              apply unvisitedCount_lt g
                (fun y hy => List.mem_cons_of_mem _ hy)
                ((dictContains_iff_mem_keys _ _).mp hc) hv
                (List.mem_cons_self _ _)
            have hmul : (g.edges.length + 2) *
                (unvisitedCount g (currentId :: visited) + 1) ≤
                (g.edges.length + 2) * unvisitedCount g visited :=
              Nat.mul_le_mul_left _ (by omega)
            rw [Nat.mul_add, Nat.mul_one] at hmul
            simp only [List.length_append, List.length_reverse,
              List.length_map]
            omega

/-- has_decision_ancestry terminates normally on every stored node of a
well-formed graph. -/
theorem hasDecisionAncestry_ok (g : RealityGraph) (inv : Invariant g)
    (n : Node) (hn : dictContains g.nodes n.id = true) :
    ∃ b, hasDecisionAncestry g n = .ok b := by
  unfold hasDecisionAncestry travFuel
  apply ancestryLoop_ok g inv _ [] [n.id]
  · intro x hx
    have : x = n.id := by simpa using hx
    rw [this]
    exact hn
  · have hu := unvisitedCount_le g []
    have hmul : (g.edges.length + 2) * unvisitedCount g [] ≤
        (g.edges.length + 2) * g.nodes.length :=
      Nat.mul_le_mul_left _ hu
    have hexp : (g.edges.length + 2) * (g.nodes.length + 1) =
        (g.edges.length + 2) * g.nodes.length + (g.edges.length + 2) := by
      ring
    simp only [List.length_singleton]
    omega

theorem mem_foldl_listAdd :
    ∀ (hits deps : List String) (x : String),
    x ∈ hits.foldl listAdd deps → x ∈ deps ∨ x ∈ hits
  | [], deps, x, h => Or.inl h
  | h0 :: t, deps, x, h => by
    rcases mem_foldl_listAdd t (listAdd deps h0) x h with h1 | h2
    · rcases mem_listAdd.mp h1 with h3 | h3
      · exact Or.inl h3
      · exact Or.inr (h3 ▸ List.mem_cons_self _ _)
    · exact Or.inr (List.mem_cons_of_mem _ h2)

/-- The dependents loop terminates normally, and every collected
dependent is a node key, whenever every stacked id and every already
collected dependent is a node key and the fuel exceeds the potential. -/
theorem dependentsLoop_ok (g : RealityGraph) (inv : Invariant g) :
    ∀ (fuel : ℕ) (dependents visited stack : List String),
    (∀ x ∈ dependents, dictContains g.nodes x = true) →
    (∀ x ∈ stack, dictContains g.nodes x = true) →
    stack.length + (g.edges.length + 2) * unvisitedCount g visited < fuel →
    ∃ deps, dependentsLoop g fuel dependents visited stack = .ok deps ∧
      ∀ x ∈ deps, dictContains g.nodes x = true
  | 0, _, _, _, _, _, hfuel => absurd hfuel (by omega)
  | fuel + 1, dependents, visited, [], hdeps, _, _ => ⟨dependents, rfl, hdeps⟩
  | fuel + 1, dependents, visited, current :: rest, hdeps, hstack, hfuel => by
    simp only [List.length_cons] at hfuel
    simp only [dependentsLoop]
    by_cases hv : current ∈ visited
    · rw [if_pos hv]
      exact dependentsLoop_ok g inv fuel dependents visited rest hdeps
        (fun x hx => hstack x (List.mem_cons_of_mem _ hx))
        (by omega)
    · rw [if_neg hv]
      rw [getOutgoingEdges_ok g inv current]
      simp only [exBind_ok]
      set outgoing := (dictGetD g.adj current []).filterMap
        (fun eid => dictGet g.edges eid) with hout
      set hits := (outgoing.filter
        (fun e => e.type == EdgeType.causes ||
                  e.type == EdgeType.enables)).map Edge.target with hhits
      have hhitsmem : ∀ x ∈ hits, dictContains g.nodes x = true := by
        intro x hx
        rcases List.mem_map.mp hx with ⟨e, he, hxe⟩
        have he' := List.mem_of_mem_filter he
        rcases mem_bucket_filterMap_edges he' with ⟨k, hk⟩
        rw [← hxe]
        exact inv.tgtMem (k, e) hk
      apply dependentsLoop_ok g inv fuel _ (current :: visited)
      · intro x hx
        rcases mem_foldl_listAdd hits dependents x hx with h1 | h2
        · exact hdeps x h1
        · exact hhitsmem x h2
      · intro x hx
        rcases List.mem_append.mp hx with hx1 | hx2
        · exact hhitsmem x (List.mem_reverse.mp hx1)
        · exact hstack x (List.mem_cons_of_mem _ hx2)
      · have hc := hstack current (List.mem_cons_self _ _)
        have hlen1 : hits.length ≤ outgoing.length := by
          rw [hhits, List.length_map]
          exact List.length_filter_le _ _
        have hlen2 : outgoing.length ≤ (dictGetD g.adj current []).length :=
          List.length_filterMap_le _ _
        have hlen3 := adj_bucket_length_le g inv current
        have hu : unvisitedCount g (current :: visited) <
            unvisitedCount g visited := by
          apply unvisitedCount_lt g
            (fun y hy => List.mem_cons_of_mem _ hy)
            ((dictContains_iff_mem_keys _ _).mp hc) hv
            (List.mem_cons_self _ _)
        have hmul : (g.edges.length + 2) *
            (unvisitedCount g (current :: visited) + 1) ≤
            (g.edges.length + 2) * unvisitedCount g visited :=
          Nat.mul_le_mul_left _ (by omega)
        rw [Nat.mul_add, Nat.mul_one] at hmul
        simp only [List.length_append, List.length_reverse]
        omega

/-- _find_all_dependents terminates normally on every node key, and every
collected dependent is again a node key. -/
theorem findAllDependents_ok (g : RealityGraph) (inv : Invariant g)
    (nodeId : String) (hn : dictContains g.nodes nodeId = true) :
    ∃ deps, findAllDependents g nodeId = .ok deps ∧
      ∀ x ∈ deps, dictContains g.nodes x = true := by
  unfold findAllDependents travFuel
  apply dependentsLoop_ok g inv _ [] [] [nodeId]
  · intro x hx
    exact absurd hx (List.not_mem_nil x)
  · intro x hx
    have : x = nodeId := by simpa using hx
    rw [this]
    exact hn
  · have hu := unvisitedCount_le g []
    have hmul : (g.edges.length + 2) * unvisitedCount g [] ≤
        (g.edges.length + 2) * g.nodes.length :=
      Nat.mul_le_mul_left _ hu
    have hexp : (g.edges.length + 2) * (g.nodes.length + 1) =
        (g.edges.length + 2) * g.nodes.length + (g.edges.length + 2) := by
      ring
    simp only [List.length_singleton]
    omega

theorem mem_listRemove {l : List String} {x y : String} :
    x ∈ listRemove l y ↔ x ∈ l ∧ x ≠ y := by
  unfold listRemove
  rw [List.mem_filter]
  constructor
  · rintro ⟨h1, h2⟩
    exact ⟨h1, by simpa using h2⟩
  · rintro ⟨h1, h2⟩
    exact ⟨h1, by simpa using h2⟩

theorem listRemove_listAdd {l : List String} {x : String} (h : x ∉ l) :
    listRemove (listAdd l x) x = l := by
  unfold listAdd listRemove
  rw [if_neg h, List.filter_append]
  have h1 : l.filter (fun y => y != x) = l := by
    apply List.filter_eq_self.mpr
    intro y hy
    simp only [bne_iff_ne, ne_eq, decide_eq_true_eq]
    exact fun he => h (he ▸ hy)
  have h2 : [x].filter (fun y => y != x) = [] := by simp
  rw [h1, h2, List.append_nil]

/-- reqNode succeeds on every node key. -/
theorem reqNode_ok {g : RealityGraph} {x : String}
    (h : dictContains g.nodes x = true) :
    ∃ nd, dictGet g.nodes x = some nd ∧ reqNode g x = .ok nd := by
  have hsome := dictGet_isSome_of_contains h
  cases hget : dictGet g.nodes x with
  | none => rw [hget] at hsome; exact absurd hsome (by simp)
  | some nd =>
    refine ⟨nd, rfl, ?_⟩
    unfold reqNode getNode
    rw [hget]

/-- The state invariant of the deadlock DFS: every path entry is a node
key, the recursion stack lies inside the current path (so the cycle
branch never raises ValueError) and inside the visited set (so the
recursion-stack restore on exit is exact). -/
structure DOK (g : RealityGraph) (st : DState) : Prop where
  pathOk : ∀ x ∈ st.currentPath, dictContains g.nodes x = true
  recPath : ∀ x ∈ st.recStack, x ∈ st.currentPath
  recVis : ∀ x ∈ st.recStack, x ∈ st.visited

/-- Precondition of a deadlock DFS control point, fuel included. -/
def DPre (g : RealityGraph) (fuel : ℕ) : DCall → Prop
  | .visit st nodeId =>
    DOK g st ∧ dictContains g.nodes nodeId = true ∧
    nodeId ∉ st.visited ∧
    (g.edges.length + 2) * unvisitedCount g st.visited + 1 ≤ fuel
  | .edges st nodeId l =>
    DOK g st ∧
    (∀ e ∈ l, ∃ k, (k, e) ∈ g.edges) ∧
    (∃ base, st.currentPath = base ++ [nodeId]) ∧
    (g.edges.length + 2) * unvisitedCount g st.visited + l.length + 2 ≤ fuel

/-- Postcondition of a deadlock DFS control point: the invariant holds
again, the visited set only grows, and a False return restores the
current path and recursion stack exactly. -/
def DPost (g : RealityGraph) : DCall → Bool × DState → Prop
  | .visit st nodeId, r =>
    DOK g r.2 ∧ (∀ x ∈ st.visited, x ∈ r.2.visited) ∧
    nodeId ∈ r.2.visited ∧
    (r.1 = false → r.2.currentPath = st.currentPath ∧
      r.2.recStack = st.recStack)
  | .edges st nodeId _, r =>
    DOK g r.2 ∧ (∀ x ∈ st.visited, x ∈ r.2.visited) ∧
    (r.1 = false → r.2.currentPath = st.currentPath.dropLast ∧
      r.2.recStack = listRemove st.recStack nodeId)

/-- The deadlock DFS driver terminates normally under its precondition,
with the stated postcondition. -/
theorem deadDrive_ok (g : RealityGraph) (inv : Invariant g) :
    ∀ (fuel : ℕ) (c : DCall), DPre g fuel c →
    ∃ r, deadDrive g fuel c = .ok r ∧ DPost g c r
  | 0, .visit _ _, hpre => absurd hpre.2.2.2 (by omega)
  | 0, .edges _ _ _, hpre => absurd hpre.2.2.2 (by omega)
  | fuel + 1, .visit st nodeId, hpre => by
    obtain ⟨hok, hcont, hnv, hfuel⟩ := hpre
    have hnrs : nodeId ∉ st.recStack := fun hmem => hnv (hok.recVis _ hmem)
    have hitsedges : ∀ e ∈ (((dictGetD g.adj nodeId []).filterMap
        (fun eid => dictGet g.edges eid)).filter
        (fun e => e.type == EdgeType.requires ||
                  e.type == EdgeType.dependsOn)),
        ∃ k, (k, e) ∈ g.edges := by
      intro e he
      exact mem_bucket_filterMap_edges (List.mem_of_mem_filter he)
    have hok1 : DOK g (⟨listAdd st.visited nodeId,
        listAdd st.recStack nodeId, st.currentPath ++ [nodeId],
        st.paths⟩ : DState) := by
      refine ⟨?_, ?_, ?_⟩
      · intro x hx
        rcases List.mem_append.mp hx with h1 | h2
        · exact hok.pathOk x h1
        · have : x = nodeId := by simpa using h2
          rw [this]; exact hcont
      · intro x hx
        rcases mem_listAdd.mp hx with h1 | h2
        · exact List.mem_append_left _ (hok.recPath x h1)
        · exact List.mem_append_right _ (by simp [h2])
      · intro x hx
        rcases mem_listAdd.mp hx with h1 | h2
        · exact mem_listAdd.mpr (Or.inl (hok.recVis x h1))
        · exact mem_listAdd.mpr (Or.inr h2)
    have hfuel1 : (g.edges.length + 2) *
        unvisitedCount g (listAdd st.visited nodeId) +
        (((dictGetD g.adj nodeId []).filterMap
          (fun eid => dictGet g.edges eid)).filter
          (fun e => e.type == EdgeType.requires ||
                    e.type == EdgeType.dependsOn)).length + 2 ≤ fuel := by
      have hlen1 : (((dictGetD g.adj nodeId []).filterMap
          (fun eid => dictGet g.edges eid)).filter
          (fun e => e.type == EdgeType.requires ||
                    e.type == EdgeType.dependsOn)).length ≤
          (dictGetD g.adj nodeId []).length :=
        le_trans (List.length_filter_le _ _) (List.length_filterMap_le _ _)
      have hlen2 := adj_bucket_length_le g inv nodeId
      have hu : unvisitedCount g (listAdd st.visited nodeId) <
          unvisitedCount g st.visited := by
        apply unvisitedCount_lt g (fun y hy => mem_listAdd.mpr (Or.inl hy))
          ((dictContains_iff_mem_keys _ _).mp hcont) hnv
          (mem_listAdd.mpr (Or.inr rfl))
      have hmul : (g.edges.length + 2) *
          (unvisitedCount g (listAdd st.visited nodeId) + 1) ≤
          (g.edges.length + 2) * unvisitedCount g st.visited :=
        Nat.mul_le_mul_left _ (by omega)
      rw [Nat.mul_add, Nat.mul_one] at hmul
      omega
    obtain ⟨r, hr, hpost⟩ := deadDrive_ok g inv fuel
      (.edges ⟨listAdd st.visited nodeId, listAdd st.recStack nodeId,
        st.currentPath ++ [nodeId], st.paths⟩ nodeId
        (((dictGetD g.adj nodeId []).filterMap
          (fun eid => dictGet g.edges eid)).filter
          (fun e => e.type == EdgeType.requires ||
                    e.type == EdgeType.dependsOn)))
      ⟨hok1, hitsedges, ⟨st.currentPath, rfl⟩, hfuel1⟩
    obtain ⟨hok', hmono', hfalse'⟩ := hpost
    refine ⟨r, ?_, ?_, ?_, ?_, ?_⟩
    · simp only [deadDrive, getOutgoingEdges_ok g inv nodeId, exBind_ok]
      exact hr
    · exact hok'
    · exact fun x hx => hmono' x (mem_listAdd.mpr (Or.inl hx))
    · exact hmono' nodeId (mem_listAdd.mpr (Or.inr rfl))
    · intro hfb
      obtain ⟨hcp, hrs⟩ := hfalse' hfb
      constructor
      · rw [hcp]
        exact List.dropLast_concat ..
      · rw [hrs]
        exact listRemove_listAdd hnrs
  | _ + 1, .edges st nodeId [], hpre => by
    obtain ⟨hok, _, ⟨base, hb⟩, _⟩ := hpre
    refine ⟨(false,
      { st with currentPath := st.currentPath.dropLast
                recStack := listRemove st.recStack nodeId }), rfl,
      ⟨?_, ?_, ?_⟩, fun x hx => hx, fun _ => ⟨rfl, rfl⟩⟩
    · intro x hx
      exact hok.pathOk x (List.dropLast_subset _ hx)
    · intro x hx
      obtain ⟨h1, h2⟩ := mem_listRemove.mp hx
      have h3 := hok.recPath x h1
      rw [hb] at h3 ⊢
      rw [List.dropLast_concat]
      rcases List.mem_append.mp h3 with h4 | h4
      · exact h4
      · exact absurd (by simpa using h4) h2
    · intro x hx
      exact hok.recVis x (mem_listRemove.mp hx).1
  | fuel + 1, .edges st nodeId (e :: rest), hpre => by
    obtain ⟨hok, hedges, hbase, hfuel⟩ := hpre
    simp only [List.length_cons] at hfuel
    obtain ⟨k, hk⟩ := hedges e (List.mem_cons_self _ _)
    simp only [deadDrive]
    by_cases hvis : e.target ∈ st.visited
    · rw [if_pos hvis]
      by_cases hrsm : e.target ∈ st.recStack
      · rw [if_pos hrsm]
        have hcp : e.target ∈ st.currentPath := hok.recPath _ hrsm
        rw [if_pos hcp]
        have hmap := mapM_ok_of_forall
          (fun n => do
            let nd ← reqNode g n
            pure nd.name)
          (fun n => (dictGet g.nodes n).map Node.name)
          (st.currentPath.drop (firstIdx e.target st.currentPath))
          (by
            intro n hn
            have hmem : n ∈ st.currentPath := List.drop_subset _ _ hn
            obtain ⟨nd, hget, hreq⟩ := reqNode_ok (hok.pathOk n hmem)
            refine ⟨nd.name, ?_, by simp [hget]⟩
            show (reqNode g n >>= fun nd => pure nd.name) = .ok nd.name
            rw [hreq]
            rfl)
        rw [hmap]
        simp only [exBind_ok]
        refine ⟨_, rfl, ⟨?_, ?_, ?_⟩, fun x hx => hx, fun hfb => ?_⟩
        · exact hok.pathOk
        · exact hok.recPath
        · exact hok.recVis
        · exact Bool.noConfusion hfb
      · rw [if_neg hrsm]
        exact deadDrive_ok g inv fuel (.edges st nodeId rest)
          ⟨hok, fun e' he' => hedges e' (List.mem_cons_of_mem _ he'),
           hbase, by omega⟩
    · rw [if_neg hvis]
      have htgt : dictContains g.nodes e.target = true :=
        inv.tgtMem (k, e) hk
      obtain ⟨found, hfound, hvpost⟩ := deadDrive_ok g inv fuel
        (.visit st e.target) ⟨hok, htgt, hvis, by omega⟩
      obtain ⟨hok', hmono', htv', hfalse'⟩ := hvpost
      rw [hfound]
      simp only [exBind_ok]
      cases hb : found.1 with
      | true =>
        refine ⟨(true, found.2), rfl, hok', hmono', fun hfb => ?_⟩
        exact Bool.noConfusion hfb
      | false =>
        obtain ⟨hcp', hrs'⟩ := hfalse' hb
        have hfuel' : (g.edges.length + 2) *
            unvisitedCount g found.2.visited + rest.length + 2 ≤ fuel := by
          have hu : unvisitedCount g found.2.visited <
              unvisitedCount g st.visited :=
            unvisitedCount_lt g hmono'
              ((dictContains_iff_mem_keys _ _).mp htgt) hvis htv'
          have hmul : (g.edges.length + 2) *
              (unvisitedCount g found.2.visited + 1) ≤
              (g.edges.length + 2) * unvisitedCount g st.visited :=
            Nat.mul_le_mul_left _ (by omega)
          rw [Nat.mul_add, Nat.mul_one] at hmul
          omega
        obtain ⟨r, hr, hpost⟩ := deadDrive_ok g inv fuel
          (.edges found.2 nodeId rest)
          ⟨hok', fun e' he' => hedges e' (List.mem_cons_of_mem _ he'),
           (by rw [hcp']; exact hbase), hfuel'⟩
        obtain ⟨hok'', hmono'', hfalse''⟩ := hpost
        refine ⟨r, hr, hok'', fun x hx => hmono'' x (hmono' x hx),
          fun hfb => ?_⟩
        obtain ⟨h1, h2⟩ := hfalse'' hfb
        exact ⟨by rw [h1, hcp'], by rw [h2, hrs']⟩

/-- The outer loop of the deadlock search terminates normally when every
root is a node key and the carried state satisfies the DFS invariant. -/
theorem deadlockOuter_ok (g : RealityGraph) (inv : Invariant g) :
    ∀ (roots : List String) (st : DState),
    (∀ x ∈ roots, dictContains g.nodes x = true) → DOK g st →
    ∃ st', deadlockOuter g roots st = .ok st'
  | [], st, _, _ => ⟨st, rfl⟩
  | nid :: rest, st, hroots, hok => by
    simp only [deadlockOuter]
    by_cases hv : nid ∈ st.visited
    · rw [if_pos hv]
      exact deadlockOuter_ok g inv rest st
        (fun x hx => hroots x (List.mem_cons_of_mem _ hx)) hok
    · rw [if_neg hv]
      have hfuel : (g.edges.length + 2) * unvisitedCount g st.visited + 1 ≤
          deadFuel g := by
        unfold deadFuel
        have hu := unvisitedCount_le g st.visited
        have hmul : (g.edges.length + 2) * unvisitedCount g st.visited ≤
            (g.edges.length + 2) * g.nodes.length :=
          Nat.mul_le_mul_left _ hu
        have hexp : (g.edges.length + 2) * (g.nodes.length + 1) =
            (g.edges.length + 2) * g.nodes.length + (g.edges.length + 2) := by
          ring
        omega
      obtain ⟨r, hr, hpost⟩ := deadDrive_ok g inv (deadFuel g)
        (.visit st nid) ⟨hok, hroots nid (List.mem_cons_self _ _), hv, hfuel⟩
      unfold deadlockVisit
      rw [hr]
      simp only [exBind_ok]
      exact deadlockOuter_ok g inv rest r.2
        (fun x hx => hroots x (List.mem_cons_of_mem _ hx)) hpost.1

/-- _find_deadlock_paths terminates normally on every well-formed
graph. -/
theorem findDeadlockPaths_ok (g : RealityGraph) (inv : Invariant g) :
    ∃ paths, findDeadlockPaths g = .ok paths := by
  obtain ⟨st', hst'⟩ := deadlockOuter_ok g inv (dictKeys g.nodes)
    ⟨[], [], [], []⟩
    (fun x hx => (dictContains_iff_mem_keys _ _).mpr hx)
    ⟨fun x hx => absurd hx (List.not_mem_nil x),
     fun x hx => absurd hx (List.not_mem_nil x),
     fun x hx => absurd hx (List.not_mem_nil x)⟩
  refine ⟨st'.paths, ?_⟩
  unfold findDeadlockPaths
  rw [hst']
  rfl

/-! Totality of the remaining monadic components on well-formed,
well-typed graphs. -/

theorem mapM_exists_ok {α β : Type} (f : α → Except String β) :
    ∀ l : List α, (∀ a ∈ l, ∃ b, f a = .ok b) →
    ∃ bs, l.mapM f = .ok bs
  | [], _ => ⟨[], rfl⟩
  | a :: t, h => by
    obtain ⟨b, hb⟩ := h a (List.mem_cons_self _ _)
    obtain ⟨bs, hbs⟩ := mapM_exists_ok f t
      (fun x hx => h x (List.mem_cons_of_mem _ hx))
    refine ⟨b :: bs, ?_⟩
    rw [List.mapM_cons, hb]
    simp only [exBind_ok]
    rw [hbs]
    rfl

theorem foldlM_exists_ok {α β : Type} (f : β → α → Except String β) :
    ∀ (l : List α), (∀ acc a, a ∈ l → ∃ b, f acc a = .ok b) →
    ∀ init, ∃ r, l.foldlM f init = .ok r
  | [], _, init => ⟨init, rfl⟩
  | a :: t, h, init => by
    obtain ⟨b, hb⟩ := h init a (List.mem_cons_self _ _)
    obtain ⟨r, hr⟩ := foldlM_exists_ok f t
      (fun acc x hx => h acc x (List.mem_cons_of_mem _ hx)) b
    refine ⟨r, ?_⟩
    rw [List.foldlM_cons, hb]
    simp only [exBind_ok]
    exact hr

theorem foldl_max_mem : ∀ (t : List ℚ) (q : ℚ),
    t.foldl max q = q ∨ t.foldl max q ∈ t
  | [], _ => Or.inl rfl
  | a :: t, q => by
    rcases foldl_max_mem t (max q a) with h | h
    · rcases max_choice q a with h2 | h2
      · exact Or.inl (by rw [List.foldl_cons, h, h2])
      · refine Or.inr ?_
        rw [List.foldl_cons, h, h2]
        exact List.mem_cons_self _ _
    · refine Or.inr (List.mem_cons_of_mem _ ?_)
      rw [List.foldl_cons]
      exact h

/-- The maximum of a non-empty list is attained. -/
theorem listMaxQ_mem : ∀ (l : List ℚ), l ≠ [] → listMaxQ l ∈ l
  | [], h => absurd rfl h
  | q :: t, _ => by
    show t.foldl max q ∈ q :: t
    rcases foldl_max_mem t q with h | h
    · rw [h]
      exact List.mem_cons_self _ _
    · exact List.mem_cons_of_mem _ h

/-- Detector 1 terminates normally on a well-formed graph with numeric
edge severities. -/
theorem explicitContradictions_ok (g : RealityGraph) (inv : Invariant g)
    (mok : MetaOK g) :
    ∃ cs, explicitContradictions g = .ok cs := by
  unfold explicitContradictions
  apply mapM_exists_ok
  intro e he
  have hev : e ∈ dictVals g.edges := List.mem_of_mem_filter he
  obtain ⟨k, hk⟩ := exists_key_of_mem_dictVals hev
  have hs := dictGet_isSome_of_contains (inv.srcMem (k, e) hk)
  have ht := dictGet_isSome_of_contains (inv.tgtMem (k, e) hk)
  have hm := metaGetNum_ok_of_numericAt e.metadata "severity" (9 / 10)
    (mok.edgeSeverity (k, e) hk)
  cases hgs : dictGet g.nodes e.source with
  | none => rw [hgs] at hs; exact absurd hs (by simp)
  | some s =>
    cases hgt : dictGet g.nodes e.target with
    | none => rw [hgt] at ht; exact absurd ht (by simp)
    | some t =>
      have hns : nodesIdx g e.source = .ok s := by
        unfold nodesIdx; rw [hgs]
      have hnt : nodesIdx g e.target = .ok t := by
        unfold nodesIdx; rw [hgt]
      refine ⟨{ nodeA := s
                nodeB := t
                explanation := .explicitReason (dictGet e.metadata "reason")
                severity := numD e.metadata "severity" (9 / 10)
                causalChain := [s.name, "contradicts", t.name] }, ?_⟩
      rw [hns]
      simp only [exBind_ok]
      rw [hnt]
      simp only [exBind_ok]
      rw [hm]
      simp only [exBind_ok]
      rfl

/-- find_contradictions terminates normally on a well-formed, well-typed
graph. -/
theorem findContradictions_ok (g : RealityGraph) (inv : Invariant g)
    (mok : MetaOK g) :
    ∃ cs, findContradictions g = .ok cs := by
  obtain ⟨c1, hc1⟩ := explicitContradictions_ok g inv mok
  unfold findContradictions
  rw [hc1]
  simp only [exBind_ok]
  rw [resourceContra_char g inv mok]
  simp only [exBind_ok]
  exact ⟨_, rfl⟩

/-- The Existence Axiom check terminates normally on a well-formed
graph. -/
theorem existenceVerify_ok (g : RealityGraph) (inv : Invariant g)
    (ctx : Ctx) : ∃ v, existenceVerify g ctx = .ok v := by
  have hstep : ∀ (acc : List String) (n : Node), n ∈ getBehaviorNodes g →
      ∃ r, (do
        let h ← hasDecisionAncestry g n
        pure (if h then acc else acc ++ [n.id]) :
          Except String (List String)) = .ok r := by
    intro acc n hn
    have hcont := val_id_contains inv
      (List.mem_of_mem_filter (a := n) hn)
    obtain ⟨b, hb⟩ := hasDecisionAncestry_ok g inv n hcont
    refine ⟨if b then acc else acc ++ [n.id], ?_⟩
    rw [hb]
    rfl
  obtain ⟨orph, horph⟩ := foldlM_exists_ok _ (getBehaviorNodes g)
    (fun acc n hn => hstep acc n hn) []
  unfold existenceVerify
  rw [horph]
  simp only [exBind_ok]
  split
  · exact ⟨none, rfl⟩
  · exact ⟨_, rfl⟩

/-- The Contradiction Law check terminates normally on a well-formed,
well-typed graph: when contradictions exist, the maximum severity is
attained, so the primary-contradiction search never raises. -/
theorem contradictionLawVerify_ok (g : RealityGraph) (inv : Invariant g)
    (mok : MetaOK g) (ctx : Ctx) :
    ∃ v, contradictionLawVerify g ctx = .ok v := by
  obtain ⟨cs, hcs⟩ := findContradictions_ok g inv mok
  unfold contradictionLawVerify
  rw [hcs]
  simp only [exBind_ok]
  cases cs with
  | nil => exact ⟨none, rfl⟩
  | cons c0 ct =>
    dsimp only
    have hmax : listMaxQ ((c0 :: ct).map Contradiction.severity) ∈
        (c0 :: ct).map Contradiction.severity :=
      listMaxQ_mem _ (by simp)
    rcases List.mem_map.mp hmax with ⟨c, hc, hcsev⟩
    cases hfind : (c0 :: ct).find? (fun x =>
        x.severity == listMaxQ ((c0 :: ct).map Contradiction.severity)) with
    | none =>
      exfalso
      have hall := List.find?_eq_none.mp hfind c hc
      exact hall (by simpa using hcsev)
    | some primary => exact ⟨_, rfl⟩

/-- verify_all terminates normally on a well-formed, well-typed graph and
any context. -/
theorem verifyAll_ok (g : RealityGraph) (inv : Invariant g)
    (mok : MetaOK g) (ctx : Ctx) : ∃ vs, verifyAll g ctx = .ok vs := by
  obtain ⟨v1, hv1⟩ := existenceVerify_ok g inv ctx
  obtain ⟨v2, hv2⟩ := contradictionLawVerify_ok g inv mok ctx
  unfold verifyAll
  rw [hv1]
  simp only [exBind_ok]
  rw [hv2]
  simp only [exBind_ok]
  exact ⟨_, rfl⟩

/-- The cascading-failure discovery terminates normally. -/
theorem findCascadingFailurePaths_ok (g : RealityGraph) (inv : Invariant g) :
    ∃ ps, findCascadingFailurePaths g = .ok ps := by
  unfold findCascadingFailurePaths
  apply foldlM_exists_ok
  intro acc node hn
  have hcont := val_id_contains inv (List.mem_of_mem_filter (a := node) hn)
  obtain ⟨deps, hdeps, _⟩ := findAllDependents_ok g inv node.id hcont
  rw [hdeps]
  simp only [exBind_ok]
  split
  · exact ⟨_, rfl⟩
  · exact ⟨acc, rfl⟩

/-- The single-point-of-failure discovery terminates normally. -/
theorem findSpofPaths_ok (g : RealityGraph) (inv : Invariant g) :
    ∃ ps, findSpofPaths g = .ok ps := by
  unfold findSpofPaths
  apply foldlM_exists_ok
  intro acc node hn
  have hcont := val_id_contains inv hn
  obtain ⟨deps, hdeps, hdepsmem⟩ := findAllDependents_ok g inv node.id hcont
  have hinner := foldlM_exists_ok
    (fun (l : List String) d => (do
      let dn ← reqNode g d
      pure (if (7 : ℚ) / 10 < dn.criticality then l ++ [d] else l) :
        Except String (List String)))
    deps
    (by
      intro l d hd
      obtain ⟨nd, _, hreq⟩ := reqNode_ok (hdepsmem d hd)
      refine ⟨if (7 : ℚ) / 10 < nd.criticality then l ++ [d] else l, ?_⟩
      simp only [hreq, exBind_ok]
      rfl)
    []
  obtain ⟨crit, hcrit⟩ := hinner
  rw [hdeps]
  simp only [exBind_ok]
  rw [hcrit]
  simp only [exBind_ok]
  split
  · exact ⟨_, rfl⟩
  · exact ⟨acc, rfl⟩

/-- _identify_collapse_paths terminates normally on a well-formed,
well-typed graph. -/
theorem identifyCollapsePaths_ok (g : RealityGraph) (inv : Invariant g)
    (mok : MetaOK g) : ∃ ps, identifyCollapsePaths g = .ok ps := by
  obtain ⟨cs, hcs⟩ := findContradictions_ok g inv mok
  obtain ⟨casc, hcasc⟩ := findCascadingFailurePaths_ok g inv
  obtain ⟨spof, hspof⟩ := findSpofPaths_ok g inv
  obtain ⟨dead, hdead⟩ := findDeadlockPaths_ok g inv
  unfold identifyCollapsePaths
  rw [hcs]
  simp only [exBind_ok]
  rw [resourceExhaust_char g inv mok]
  simp only [exBind_ok]
  rw [hcasc]
  simp only [exBind_ok]
  rw [hspof]
  simp only [exBind_ok]
  rw [hdead]
  simp only [exBind_ok]
  exact ⟨_, rfl⟩

/-- compute terminates normally on a well-formed, well-typed graph. -/
theorem compute_ok (g : RealityGraph) (inv : Invariant g) (mok : MetaOK g)
    (violations : List AxiomViolation) :
    ∃ q, compute g violations = .ok q := by
  obtain ⟨ps, hps⟩ := identifyCollapsePaths_ok g inv mok
  unfold compute
  rw [hps]
  simp only [exBind_ok]
  exact ⟨_, rfl⟩

theorem sufficientLoop_ok (g : RealityGraph) (inv : Invariant g) :
    ∀ l : List Node, (∀ b ∈ l, dictContains g.nodes b.id = true) →
    ∃ r, sufficientLoop g l = .ok r
  | [], _ => ⟨true, rfl⟩
  | b :: rest, h => by
    obtain ⟨hb, hhb⟩ := hasDecisionAncestry_ok g inv b
      (h b (List.mem_cons_self _ _))
    simp only [sufficientLoop]
    rw [hhb]
    simp only [exBind_ok]
    split
    · exact sufficientLoop_ok g inv rest
        (fun x hx => h x (List.mem_cons_of_mem _ hx))
    · exact ⟨false, rfl⟩

theorem hasSufficientData_ok (g : RealityGraph) (inv : Invariant g) :
    ∃ r, hasSufficientData g = .ok r := by
  unfold hasSufficientData
  split
  · exact ⟨false, rfl⟩
  · split
    · exact ⟨false, rfl⟩
    · exact sufficientLoop_ok g inv (getBehaviorNodes g)
        (fun b hb => val_id_contains inv (List.mem_of_mem_filter (a := b) hb))

/-- render_verdict terminates normally on a well-formed graph, any
violation list, FII value and counterfactual results. -/
theorem renderVerdict_ok (g : RealityGraph) (inv : Invariant g)
    (violations : List AxiomViolation) (fii : ℚ)
    (cfResults : List CounterfactualResult) :
    ∃ vd, renderVerdict g violations fii cfResults = .ok vd := by
  obtain ⟨b, hsb⟩ := hasSufficientData_ok g inv
  unfold renderVerdict
  split
  · exact ⟨_, rfl⟩
  · split
    · exact ⟨_, rfl⟩
    · dsimp only
      split
      · exact ⟨_, rfl⟩
      · rw [hsb]
        simp only [exBind_ok]
        split
        · exact ⟨_, rfl⟩
        · split
          · exact ⟨_, rfl⟩
          · exact ⟨_, rfl⟩

/-- C6 (amended): on every graph satisfying the structural well-formedness
invariants whose numerically-read metadata entries (node capacity and
resource_demand, edge severity) hold numbers or booleans, and for every
context, violation list, FII value and counterfactual result list,
AxiomRegistry.verify_all, FIICalculator.compute and
ExistenceJudge.render_verdict all terminate normally with a value and
never raise an exception. -/
theorem c6_theorem (g : RealityGraph) (ctx : Ctx)
    (violations : List AxiomViolation) (fii : ℚ)
    (cfResults : List CounterfactualResult)
    (inv : Invariant g) (mok : MetaOK g) :
    (∃ vs, verifyAll g ctx = .ok vs) ∧
    (∃ q, compute g violations = .ok q) ∧
    (∃ vd, renderVerdict g violations fii cfResults = .ok vd) :=
  ⟨verifyAll_ok g inv mok ctx, compute_ok g inv mok violations,
   renderVerdict_ok g inv violations fii cfResults⟩

theorem c6_witness :
    (∃ vs, verifyAll c7Graph emptyCtx = .ok vs) ∧
    (∃ q, compute c7Graph [] = .ok q) ∧
    (∃ vd, renderVerdict c7Graph [] 0 [] = .ok vd) :=
  c6_theorem c7Graph emptyCtx [] 0 [] (by decide) (by decide)
